import Mathlib

/-!
Shallow embedding of the Oliviathan chess engine core
(board state machine, move generator, evaluator, alpha-beta search, perft),
translated from the C++ sources: board.h/board.cpp, movegen.h/movegen source,
evaluate.h/evaluate source, search.h/search source, perft.h/perft.cpp.

C++ `int` is modelled by `Int` (no arithmetic in the verified paths overflows),
`std::array<Square,64>` by a total function `Nat → Square` updated pointwise,
`std::vector<Board::Move>` by `List Move`, and in-place mutation by explicit
state passing.  A failing `makeMove` returns `(false, b)` with the original
board `b`, mirroring the C++ code's early `return false` before any mutation.
-/

namespace Oliviathan

/-- `enum Piece` from board.h. -/
inductive Piece where
  | EMPTY | PAWN | KNIGHT | BISHOP | ROOK | QUEEN | KING
  deriving DecidableEq

/-- `enum Colour` from board.h. -/
inductive Colour where
  | WHITE | BLACK | NO_COLOUR
  deriving DecidableEq

open Piece Colour

/-- `struct Square { Piece piece; Colour colour; }` from board.h. -/
structure Square where
  piece : Piece
  colour : Colour
  deriving DecidableEq

/-- `Square()` default constructor: `piece(EMPTY), colour(NO_COLOUR)`. -/
def Square.emptySq : Square := ⟨EMPTY, NO_COLOUR⟩

/-- `struct Move` from board.h: from, to, promotion, isCastle, isEnPassant.
(`from` is a Lean keyword, so the fields are named `fromSq`/`toSq`.) -/
structure Move where
  fromSq : Int
  toSq : Int
  promotion : Piece
  isCastle : Bool
  isEnPassant : Bool
  deriving DecidableEq

/-- The `Board` class state (board.h): 64 squares, side to move, the four
castling-rights flags (indexed as in the C++ `std::array<bool,4>`:
0 = White kingside, 1 = White queenside, 2 = Black kingside,
3 = Black queenside), en-passant target (−1 if none), and the two clocks. -/
structure Board where
  squares : Nat → Square
  sideToMove : Colour
  castlingRights : Fin 4 → Bool
  enPassantSquare : Int
  halfmoveClock : Int
  fullmoveNumber : Int

/-- `Board::toIndex(file, rank) = rank * BOARD_SIZE + file`. -/
def Board.toIndex (file rank : Int) : Int := rank * 8 + file

/-- `Board::indexToCoords`: file component (`index % BOARD_SIZE`). -/
def Board.fileOf (index : Int) : Int := index % 8

/-- `Board::indexToCoords`: rank component (`index / BOARD_SIZE`). -/
def Board.rankOf (index : Int) : Int := index / 8

/-- Unchecked array read `squares[i]` (all reads on executed C++ paths are
in range; out-of-range reads are totalised to the empty square). -/
def readSq (sqs : Nat → Square) (i : Int) : Square :=
  if 0 ≤ i ∧ i < 64 then sqs i.toNat else Square.emptySq

/-- Array write `squares[i] = v` (in range on all executed C++ paths). -/
def writeSq (sqs : Nat → Square) (i : Int) (v : Square) : Nat → Square :=
  if 0 ≤ i ∧ i < 64 then (fun j => if j = i.toNat then v else sqs j) else sqs

/-- Write one castling-rights flag. -/
def writeCR (cr : Fin 4 → Bool) (i : Fin 4) (v : Bool) : Fin 4 → Bool :=
  fun j => if j = i then v else cr j

/-- `Board::getSquare`: empty square for indices outside [0, 64), else the
stored content (board.cpp lines 249-253). -/
def Board.getSquare (b : Board) (index : Int) : Square :=
  if index < 0 ∨ 64 ≤ index then Square.emptySq else b.squares index.toNat

/-- `Board::getSideToMove`. -/
def Board.getSideToMove (b : Board) : Colour := b.sideToMove

/-- `Board::getCastlingRights`. -/
def Board.getCastlingRights (b : Board) : Fin 4 → Bool := b.castlingRights

/-- `Board::getEnPassantSquare`. -/
def Board.getEnPassantSquare (b : Board) : Int := b.enPassantSquare

/-- `Board::isGameOver`: "For now, always returns false." -/
def Board.isGameOver (_b : Board) : Bool := false

/-- Back-rank piece for a file, from `initialisePosition`'s
`backRank = {ROOK, KNIGHT, BISHOP, QUEEN, KING, BISHOP, KNIGHT, ROOK}`. -/
def backRank (f : Nat) : Piece :=
  if f = 0 then ROOK else if f = 1 then KNIGHT else if f = 2 then BISHOP
  else if f = 3 then QUEEN else if f = 4 then KING else if f = 5 then BISHOP
  else if f = 6 then KNIGHT else if f = 7 then ROOK else EMPTY

/-- `Board::initialisePosition`: pawns on ranks 1 and 6, back-rank pieces on
ranks 0 and 7, all other squares empty. -/
def initialSquares : Nat → Square := fun i =>
  let r := i / 8
  let f := i % 8
  if r = 1 then ⟨PAWN, WHITE⟩
  else if r = 6 then ⟨PAWN, BLACK⟩
  else if r = 0 then ⟨backRank f, WHITE⟩
  else if r = 7 then ⟨backRank f, BLACK⟩
  else Square.emptySq

/-- `Board::reset` / the `Board` constructor: standard starting position,
White to move, all castling rights, no en-passant target, clocks 0 and 1. -/
def Board.initial : Board :=
  { squares := initialSquares
    sideToMove := WHITE
    castlingRights := fun _ => true
    enPassantSquare := -1
    halfmoveClock := 0
    fullmoveNumber := 1 }

/-- `Board::clearEnPassant`: sets the en-passant square to −1 (board.cpp). -/
def clearedEnPassant : Int := -1

/-- `Board::updateCastlingRights` (board.cpp lines 282-304).  `sqs` is the
board array at call time — the C++ method reads the member `squares`, which
at its call sites inside `makeMove` has already been updated by the move. -/
def Board.updateCastlingRightsFun (move : Move) (cr0 : Fin 4 → Bool)
    (sqs : Nat → Square) : Fin 4 → Bool :=
  -- White king moves
  let cr := if move.fromSq = Board.toIndex 4 0 then
      writeCR (writeCR cr0 0 false) 1 false else cr0
  -- Black king moves
  let cr := if move.fromSq = Board.toIndex 4 7 then
      writeCR (writeCR cr 2 false) 3 false else cr
  -- White rook moves
  let cr := if move.fromSq = Board.toIndex 0 0 then writeCR cr 1 false else cr
  let cr := if move.fromSq = Board.toIndex 7 0 then writeCR cr 0 false else cr
  -- Black rook moves
  let cr := if move.fromSq = Board.toIndex 0 7 then writeCR cr 3 false else cr
  let cr := if move.fromSq = Board.toIndex 7 7 then writeCR cr 2 false else cr
  -- "If rook is captured": reads squares[move.to] AFTER the move was applied
  let cr := if move.toSq = Board.toIndex 0 0 ∧ (readSq sqs move.toSq).piece = ROOK then
      writeCR cr 1 false else cr
  let cr := if move.toSq = Board.toIndex 7 0 ∧ (readSq sqs move.toSq).piece = ROOK then
      writeCR cr 0 false else cr
  let cr := if move.toSq = Board.toIndex 0 7 ∧ (readSq sqs move.toSq).piece = ROOK then
      writeCR cr 3 false else cr
  if move.toSq = Board.toIndex 7 7 ∧ (readSq sqs move.toSq).piece = ROOK then
    writeCR cr 2 false else cr

/-- `Board::isLegalCastle` (board.cpp lines 352-371): checks the rights flag
for the chosen side (kingside iff `to > from`) and that the squares between
king and rook on the side-to-move's back rank are empty. -/
def Board.isLegalCastle (b : Board) (move : Move) : Bool :=
  let rank : Int := if b.sideToMove = WHITE then 0 else 7
  if move.toSq > move.fromSq then -- Kingside
    if ¬(if b.sideToMove = WHITE then b.castlingRights 0 else b.castlingRights 2) then
      false
    else
      decide ((b.getSquare (Board.toIndex 5 rank)).piece = EMPTY ∧
              (b.getSquare (Board.toIndex 6 rank)).piece = EMPTY)
  else -- Queenside
    if ¬(if b.sideToMove = WHITE then b.castlingRights 1 else b.castlingRights 3) then
      false
    else
      decide ((b.getSquare (Board.toIndex 1 rank)).piece = EMPTY ∧
              (b.getSquare (Board.toIndex 2 rank)).piece = EMPTY ∧
              (b.getSquare (Board.toIndex 3 rank)).piece = EMPTY)

/-- `Board::isLegalEnPassant`: the destination must equal the current
en-passant target square. -/
def Board.isLegalEnPassantMove (b : Board) (move : Move) : Bool :=
  b.enPassantSquare = move.toSq

/-- `Board::makeMove(const Move&)` (board.cpp lines 87-170), as a pure state
transformer returning the C++ `bool` result together with the new state.
Every early `return false` in the C++ code happens before any member is
assigned, so failures return the board unchanged. -/
def Board.makeMove (b : Board) (move : Move) : Bool × Board :=
  let source := readSq b.squares move.fromSq
  -- Check if source piece matches side to move
  if source.colour ≠ b.sideToMove ∨ source.piece = EMPTY then (false, b)
  -- Handle castling moves
  else if move.isCastle then
    if ¬ b.isLegalCastle move then (false, b)
    else
      let kingFrom := move.fromSq
      let kingTo := move.toSq
      let rookFrom := if kingTo > kingFrom then kingFrom + 3 else kingFrom - 4
      let rookTo := if kingTo > kingFrom then kingFrom + 1 else kingFrom - 1
      let sq1 := writeSq b.squares rookTo (readSq b.squares rookFrom) -- Move rook
      let sq2 := writeSq sq1 rookFrom Square.emptySq
      let sq3 := writeSq sq2 kingTo (readSq sq2 kingFrom)             -- Move king
      let sq4 := writeSq sq3 kingFrom Square.emptySq
      let cr := Board.updateCastlingRightsFun move b.castlingRights sq4
      let side' := if b.sideToMove = WHITE then BLACK else WHITE
      (true, { squares := sq4, sideToMove := side', castlingRights := cr
               enPassantSquare := clearedEnPassant
               halfmoveClock := b.halfmoveClock + 1
               fullmoveNumber := if side' = WHITE then b.fullmoveNumber + 1
                                 else b.fullmoveNumber })
  -- Handle en passant
  else if move.isEnPassant then
    if ¬ b.isLegalEnPassantMove move then (false, b)
    else
      let sq1 := writeSq b.squares move.toSq (readSq b.squares move.fromSq) -- Move pawn
      let sq2 := writeSq sq1 move.fromSq Square.emptySq
      -- Remove captured pawn
      let epCaptureSq := move.toSq + (if b.sideToMove = WHITE then (-8 : Int) else 8)
      let sq3 := writeSq sq2 epCaptureSq Square.emptySq
      let cr := Board.updateCastlingRightsFun move b.castlingRights sq3
      let side' := if b.sideToMove = WHITE then BLACK else WHITE
      (true, { squares := sq3, sideToMove := side', castlingRights := cr
               enPassantSquare := clearedEnPassant
               halfmoveClock := 0 -- Reset halfmove clock for capture
               fullmoveNumber := if side' = WHITE then b.fullmoveNumber + 1
                                 else b.fullmoveNumber })
  -- Standard moves
  else
    -- Handle pawn double advance for en passant
    let ep' := if source.piece = PAWN ∧ (move.toSq - move.fromSq = 16 ∨ move.fromSq - move.toSq = 16)
      then (move.fromSq + move.toSq) / 2 else clearedEnPassant
    -- Handle promotion
    let sq1 := if move.promotion ≠ EMPTY then
        writeSq b.squares move.toSq ⟨move.promotion, source.colour⟩
      else
        writeSq b.squares move.toSq (readSq b.squares move.fromSq)
    -- If move is a capture or pawn move, reset halfmove clock.
    -- NB the C++ reads `destination` AFTER the assignment above and `source`
    -- through its reference (still un-assigned at this point unless from = to).
    let hm' := if (readSq sq1 move.toSq).piece ≠ EMPTY ∨ (readSq sq1 move.fromSq).piece = PAWN
      then 0 else b.halfmoveClock + 1
    let sq2 := writeSq sq1 move.fromSq Square.emptySq -- Empty source square
    let cr := Board.updateCastlingRightsFun move b.castlingRights sq2
    let side' := if b.sideToMove = WHITE then BLACK else WHITE
    (true, { squares := sq2, sideToMove := side', castlingRights := cr
             enPassantSquare := ep'
             halfmoveClock := hm'
             fullmoveNumber := if side' = WHITE then b.fullmoveNumber + 1
                               else b.fullmoveNumber })

/-! ## Move generation (movegen.h and its implementation file) -/

/-- `knightOffsets` movement table. -/
def knightOffsets : List (Int × Int) :=
  [(1, 2), (2, 1), (2, -1), (1, -2), (-1, -2), (-2, -1), (-2, 1), (-1, 2)]

/-- `bishopOffsets` movement table. -/
def bishopOffsets : List (Int × Int) := [(1, 1), (1, -1), (-1, -1), (-1, 1)]

/-- `rookOffsets` movement table. -/
def rookOffsets : List (Int × Int) := [(1, 0), (0, 1), (-1, 0), (0, -1)]

/-- `kingOffsets` movement table. -/
def kingOffsets : List (Int × Int) :=
  [(1, 1), (1, 0), (1, -1), (0, -1), (-1, -1), (-1, 0), (-1, 1), (0, 1)]

namespace MoveGen

/-- A move with no promotion and no special flags (`moves.emplace_back(from, to)`). -/
def plainMove (f t : Int) : Move := ⟨f, t, EMPTY, false, false⟩

/-- The four promotion moves pushed in order QUEEN, ROOK, BISHOP, KNIGHT. -/
def promotionMoves (f t : Int) : List Move :=
  [⟨f, t, QUEEN, false, false⟩, ⟨f, t, ROOK, false, false⟩,
   ⟨f, t, BISHOP, false, false⟩, ⟨f, t, KNIGHT, false, false⟩]

/-- `MoveGen::addPawnMoves`: forward step (with promotion expansion), double
advance from the start rank, and the two diagonal captures. -/
def addPawnMoves (b : Board) (fromSq : Int) : List Move :=
  let pawn := b.getSquare fromSq
  let file := Board.fileOf fromSq
  let rank := Board.rankOf fromSq
  let direction : Int := if pawn.colour = WHITE then 1 else -1
  let startRank : Int := if pawn.colour = WHITE then 1 else 6
  let promotionRank : Int := if pawn.colour = WHITE then 7 else 0
  -- Single square forward move (and double move from starting rank)
  let fwdRank := rank + direction
  let fwdMoves :=
    if 0 ≤ fwdRank ∧ fwdRank < 8 then
      let toIdx := Board.toIndex file fwdRank
      if (b.getSquare toIdx).piece = EMPTY then
        (if fwdRank = promotionRank then promotionMoves fromSq toIdx
         else [plainMove fromSq toIdx]) ++
        (if rank = startRank then
          let dblRank := rank + 2 * direction
          let dblTo := Board.toIndex file dblRank
          if (b.getSquare dblTo).piece = EMPTY then [plainMove fromSq dblTo] else []
        else [])
      else []
    else []
  -- Captures to the left and right (including promotion)
  let capMoves := ([-1, 1] : List Int).foldl (fun acc df =>
    let capFile := file + df
    let capRank := rank + direction
    acc ++
      (if (0 ≤ capFile ∧ capFile < 8) ∧ 0 ≤ capRank ∧ capRank < 8 then
        let toIdx := Board.toIndex capFile capRank
        let target := b.getSquare toIdx
        if target.piece ≠ EMPTY ∧ target.colour ≠ pawn.colour then
          if capRank = promotionRank then promotionMoves fromSq toIdx
          else [plainMove fromSq toIdx]
        else []
      else [])) []
  fwdMoves ++ capMoves

/-- `MoveGen::addKnightMoves`: the 8 L-jumps, filtered to on-board squares
that are empty or hold an opposite-colour piece. -/
def addKnightMoves (b : Board) (fromSq : Int) : List Move :=
  let file := Board.fileOf fromSq
  let rank := Board.rankOf fromSq
  let knight := b.getSquare fromSq
  knightOffsets.foldl (fun acc off =>
    let toFile := file + off.1
    let toRank := rank + off.2
    acc ++
      (if (0 ≤ toFile ∧ toFile < 8) ∧ 0 ≤ toRank ∧ toRank < 8 then
        let toIdx := Board.toIndex toFile toRank
        let target := b.getSquare toIdx
        if target.piece = EMPTY ∨ target.colour ≠ knight.colour then
          [plainMove fromSq toIdx]
        else []
      else [])) []

/-- One sliding ray of `addBishopMoves`/`addRookMoves`: `dist` runs from 1
while `dist < BOARD_SIZE` (7 iterations, here a fuel argument), stepping until
off-board or a blocker (capturing an opposite-colour blocker). -/
def rayGo (b : Board) (fromSq : Int) (pieceColour : Colour) (file rank df dr : Int) :
    Nat → Int → List Move
  | 0, _ => []
  | fuel + 1, dist =>
    let toFile := file + df * dist
    let toRank := rank + dr * dist
    if toFile < 0 ∨ 8 ≤ toFile ∨ toRank < 0 ∨ 8 ≤ toRank then []
    else
      let toIdx := Board.toIndex toFile toRank
      let target := b.getSquare toIdx
      if target.piece = EMPTY then
        plainMove fromSq toIdx :: rayGo b fromSq pieceColour file rank df dr fuel (dist + 1)
      else if target.colour ≠ pieceColour then [plainMove fromSq toIdx]
      else []

/-- `MoveGen::addBishopMoves`: ray-cast along the 4 diagonals. -/
def addBishopMoves (b : Board) (fromSq : Int) : List Move :=
  let file := Board.fileOf fromSq
  let rank := Board.rankOf fromSq
  let bishop := b.getSquare fromSq
  bishopOffsets.foldl (fun acc off =>
    acc ++ rayGo b fromSq bishop.colour file rank off.1 off.2 7 1) []

/-- `MoveGen::addRookMoves`: ray-cast along the 4 orthogonals. -/
def addRookMoves (b : Board) (fromSq : Int) : List Move :=
  let file := Board.fileOf fromSq
  let rank := Board.rankOf fromSq
  let rook := b.getSquare fromSq
  rookOffsets.foldl (fun acc off =>
    acc ++ rayGo b fromSq rook.colour file rank off.1 off.2 7 1) []

/-- `MoveGen::addQueenMoves`: bishop moves then rook moves. -/
def addQueenMoves (b : Board) (fromSq : Int) : List Move :=
  addBishopMoves b fromSq ++ addRookMoves b fromSq

/-- `MoveGen::addKingMoves`: the 8 adjacent squares. -/
def addKingMoves (b : Board) (fromSq : Int) : List Move :=
  let file := Board.fileOf fromSq
  let rank := Board.rankOf fromSq
  let king := b.getSquare fromSq
  kingOffsets.foldl (fun acc off =>
    let toFile := file + off.1
    let toRank := rank + off.2
    acc ++
      (if (0 ≤ toFile ∧ toFile < 8) ∧ 0 ≤ toRank ∧ toRank < 8 then
        let toIdx := Board.toIndex toFile toRank
        let target := b.getSquare toIdx
        if target.piece = EMPTY ∨ target.colour ≠ king.colour then
          [plainMove fromSq toIdx]
        else []
      else [])) []

/-- One attack ray of `MoveGen::isSquareAttacked` for sliders: reports a hit
if `square` is reached before the first blocker (the blocker square itself
counts as attacked). -/
def rayHits (b : Board) (file rank df dr : Int) (square : Int) : Nat → Int → Bool
  | 0, _ => false
  | fuel + 1, dist =>
    let toFile := file + df * dist
    let toRank := rank + dr * dist
    if toFile < 0 ∨ 8 ≤ toFile ∨ toRank < 0 ∨ 8 ≤ toRank then false
    else
      let toIdx := Board.toIndex toFile toRank
      if toIdx = square then true
      else if (b.getSquare toIdx).piece ≠ EMPTY then false
      else rayHits b file rank df dr square fuel (dist + 1)

/-- The body of `MoveGen::isSquareAttacked`'s per-square loop: does the piece
sitting on `sq` (if any, of colour `attacker`) geometrically attack `square`? -/
def attacksSquareFrom (b : Board) (attacker : Colour) (sq : Int) (square : Int) : Bool :=
  let piece := b.getSquare sq
  if piece.colour ≠ attacker ∨ piece.piece = EMPTY then false
  else
    let file := Board.fileOf sq
    let rank := Board.rankOf sq
    match piece.piece with
    | PAWN =>
      let direction : Int := if attacker = WHITE then 1 else -1
      ([-1, 1] : List Int).any fun df =>
        let capFile := file + df
        let capRank := rank + direction
        decide ((0 ≤ capFile ∧ capFile < 8) ∧ (0 ≤ capRank ∧ capRank < 8) ∧
          Board.toIndex capFile capRank = square)
    | KNIGHT =>
      knightOffsets.any fun off =>
        let toFile := file + off.1
        let toRank := rank + off.2
        decide ((0 ≤ toFile ∧ toFile < 8) ∧ (0 ≤ toRank ∧ toRank < 8) ∧
          Board.toIndex toFile toRank = square)
    | BISHOP => bishopOffsets.any fun off => rayHits b file rank off.1 off.2 square 7 1
    | ROOK => rookOffsets.any fun off => rayHits b file rank off.1 off.2 square 7 1
    | QUEEN =>
      (bishopOffsets.any fun off => rayHits b file rank off.1 off.2 square 7 1) ||
      (rookOffsets.any fun off => rayHits b file rank off.1 off.2 square 7 1)
    | KING =>
      kingOffsets.any fun off =>
        let toFile := file + off.1
        let toRank := rank + off.2
        decide ((0 ≤ toFile ∧ toFile < 8) ∧ (0 ≤ toRank ∧ toRank < 8) ∧
          Board.toIndex toFile toRank = square)
    | EMPTY => false

/-- `MoveGen::isSquareAttacked` (movegen implementation, lines 331-455):
scans all 64 squares for attacker pieces whose geometric reach covers
`square`. -/
def isSquareAttacked (b : Board) (square : Int) (attacker : Colour) : Bool :=
  (List.range 64).any fun sq => attacksSquareFrom b attacker (Int.ofNat sq) square

/-- `MoveGen::findKingSquare`: the first square holding the given colour's
king, or −1 if none. -/
def findKingSquare (b : Board) (colour : Colour) : Int :=
  match (List.range 64).find? (fun sq =>
      decide ((b.getSquare (Int.ofNat sq)).piece = KING ∧
              (b.getSquare (Int.ofNat sq)).colour = colour)) with
  | some sq => Int.ofNat sq
  | none => -1

/-- `MoveGen::addCastlingMoves`: rights flag set, squares between king and
rook empty, and king/passing/destination squares not attacked. -/
def addCastlingMoves (b : Board) : List Move :=
  let side := b.getSideToMove
  let rank : Int := if side = WHITE then 0 else 7
  let kingFrom := Board.toIndex 4 rank
  let rights := b.getCastlingRights
  let opp := if side = WHITE then BLACK else WHITE
  -- Kingside castling
  let ks :=
    if (if side = WHITE then rights 0 else rights 2) = true ∧
       (b.getSquare (Board.toIndex 5 rank)).piece = EMPTY ∧
       (b.getSquare (Board.toIndex 6 rank)).piece = EMPTY ∧
       isSquareAttacked b kingFrom opp = false ∧
       isSquareAttacked b (Board.toIndex 5 rank) opp = false ∧
       isSquareAttacked b (Board.toIndex 6 rank) opp = false then
      [⟨kingFrom, Board.toIndex 6 rank, EMPTY, true, false⟩]
    else []
  -- Queenside castling
  let qs :=
    if (if side = WHITE then rights 1 else rights 3) = true ∧
       (b.getSquare (Board.toIndex 1 rank)).piece = EMPTY ∧
       (b.getSquare (Board.toIndex 2 rank)).piece = EMPTY ∧
       (b.getSquare (Board.toIndex 3 rank)).piece = EMPTY ∧
       isSquareAttacked b kingFrom opp = false ∧
       isSquareAttacked b (Board.toIndex 3 rank) opp = false ∧
       isSquareAttacked b (Board.toIndex 2 rank) opp = false then
      [⟨kingFrom, Board.toIndex 2 rank, EMPTY, true, false⟩]
    else []
  ks ++ qs

/-- `MoveGen::addEnPassantMoves`: for an active en-passant target, each
side-to-move pawn diagonally adjacent behind the target yields a capture. -/
def addEnPassantMoves (b : Board) : List Move :=
  let epSq := b.getEnPassantSquare
  if epSq = -1 then []
  else
    let side := b.getSideToMove
    let file := Board.fileOf epSq
    let rank := Board.rankOf epSq
    -- Only pawns on the correct rank can capture en passant
    let pawnRank := if side = WHITE then rank - 1 else rank + 1
    if pawnRank < 0 ∨ 8 ≤ pawnRank then []
    else
      ([-1, 1] : List Int).foldl (fun acc df =>
        let pawnFile := file + df
        acc ++
          (if pawnFile < 0 ∨ 8 ≤ pawnFile then []
           else
             let fromSq := Board.toIndex pawnFile pawnRank
             let pawn := b.getSquare fromSq
             if pawn.piece = PAWN ∧ pawn.colour = side then
               [⟨fromSq, epSq, EMPTY, false, true⟩]
             else [])) []

/-- The per-square dispatch inside `MoveGen::generatePseudoLegalMoves`. -/
def pieceMovesFrom (b : Board) (sq : Int) : List Move :=
  let square := b.getSquare sq
  if square.colour ≠ b.getSideToMove ∨ square.piece = EMPTY then []
  else
    match square.piece with
    | PAWN => addPawnMoves b sq
    | KNIGHT => addKnightMoves b sq
    | BISHOP => addBishopMoves b sq
    | ROOK => addRookMoves b sq
    | QUEEN => addQueenMoves b sq
    | KING => addKingMoves b sq
    | EMPTY => []

/-- `MoveGen::generatePseudoLegalMoves`: all piece moves in square order,
then castling moves, then en-passant moves. -/
def generatePseudoLegalMoves (b : Board) : List Move :=
  ((List.range 64).foldl (fun acc sq => acc ++ pieceMovesFrom b (Int.ofNat sq)) [])
    ++ addCastlingMoves b ++ addEnPassantMoves b

/-- `MoveGen::generateLegalMoves`: keep each pseudo-legal move whose
application succeeds on a copy and leaves the mover's (located) king
un-attacked by the opponent. -/
def generateLegalMoves (b : Board) : List Move :=
  (generatePseudoLegalMoves b).filter fun move =>
    let result := b.makeMove move
    if result.1 = false then false
    else
      let kingSq := findKingSquare result.2 b.getSideToMove
      let opponent := if b.getSideToMove = WHITE then BLACK else WHITE
      decide (kingSq ≠ -1 ∧ isSquareAttacked result.2 kingSq opponent = false)

end MoveGen

/-! ## Perft (perft.cpp) -/

namespace Perft

/-- `Perft::perftRecursive`: counts 1 at depth 0, else sums the counts of the
successfully applied legal moves (`nodes` accumulator made explicit). -/
def perftRecursive : Nat → Board → Nat
  | 0, _ => 1
  | d + 1, b =>
    (MoveGen.generateLegalMoves b).foldl (fun nodes move =>
      let result := b.makeMove move
      if result.1 then nodes + perftRecursive d result.2 else nodes) 0

/-- `Perft::run`: copies the board and counts leaf nodes to `depth`. -/
def run (b : Board) (depth : Nat) : Nat := perftRecursive depth b

end Perft

/-! ## Move parsing (`Board::parseMove`, `Board::makeMove(const std::string&)`) -/

/-- `Board::parseMove` (board.cpp lines 307-349): coordinate notation with an
optional promotion letter; flags the move as a castle (king moving two files
on the same rank) or as en passant (diagonal pawn move onto the empty current
en-passant target). -/
def Board.parseMove (b : Board) (moveStr : String) : Option Move :=
  let cs := moveStr.data
  if cs.length < 4 then none
  else
    let fromFile := cs.getD 0 ' '
    let fromRank := cs.getD 1 ' '
    let toFile := cs.getD 2 ' '
    let toRank := cs.getD 3 ' '
    if fromFile < 'a' ∨ 'h' < fromFile ∨ toFile < 'a' ∨ 'h' < toFile then none
    else if fromRank < '1' ∨ '8' < fromRank ∨ toRank < '1' ∨ '8' < toRank then none
    else
      let ff : Int := (fromFile.toNat : Int) - ('a'.toNat : Int)
      let fr : Int := (fromRank.toNat : Int) - ('1'.toNat : Int)
      let tf : Int := (toFile.toNat : Int) - ('a'.toNat : Int)
      let tr : Int := (toRank.toNat : Int) - ('1'.toNat : Int)
      let fromSq := Board.toIndex ff fr
      let toSq := Board.toIndex tf tr
      -- Check for promotion (e.g., "e7e8q")
      let promotion :=
        if 5 ≤ cs.length then
          match (cs.getD 4 ' ').toLower with
          | 'q' => QUEEN
          | 'r' => ROOK
          | 'b' => BISHOP
          | 'n' => KNIGHT
          | _ => EMPTY
        else EMPTY
      -- Check for castling (king move two squares)
      let src := b.getSquare fromSq
      let isCastle := decide (src.piece = KING ∧ (tf - ff = 2 ∨ ff - tf = 2) ∧ fr = tr)
      -- Check for en passant (pawn diagonal, target empty, ep square matches)
      let isEnPassant := decide (src.piece = PAWN ∧ (readSq b.squares toSq).piece = EMPTY ∧
        ff ≠ tf ∧ b.enPassantSquare = toSq)
      some ⟨fromSq, toSq, promotion, isCastle, isEnPassant⟩

/-- `Board::makeMove(const std::string&)`: parse, then apply; a parse failure
returns false with the board untouched. -/
def Board.makeMoveStr (b : Board) (moveStr : String) : Bool × Board :=
  match b.parseMove moveStr with
  | none => (false, b)
  | some m => b.makeMove m

/-! ## Evaluation (evaluate.h and its implementation file) -/

namespace Evaluate

/-- `Evaluate::pawnTable`. -/
def pawnTable : List Int :=
  [ 0,  0,  0,  0,  0,  0,  0,  0,
   10, 10, 10, 10, 10, 10, 10, 10,
    5,  5,  8, 12, 12,  8,  5,  5,
    2,  2,  4, 10, 10,  4,  2,  2,
    1,  1,  2,  5,  5,  2,  1,  1,
    0,  0,  0,  0,  0,  0,  0,  0,
    0,  0,  0, -2, -2,  0,  0,  0,
    0,  0,  0,  0,  0,  0,  0,  0]

/-- `Evaluate::knightTable`. -/
def knightTable : List Int :=
  [-50,-40,-30,-30,-30,-30,-40,-50,
   -40,-20,  0,  0,  0,  0,-20,-40,
   -30,  0, 10, 15, 15, 10,  0,-30,
   -30,  5, 15, 20, 20, 15,  5,-30,
   -30,  0, 15, 20, 20, 15,  0,-30,
   -30,  5, 10, 15, 15, 10,  5,-30,
   -40,-20,  0,  5,  5,  0,-20,-40,
   -50,-40,-30,-30,-30,-30,-40,-50]

/-- `Evaluate::bishopTable`. -/
def bishopTable : List Int :=
  [-20,-10,-10,-10,-10,-10,-10,-20,
   -10,  5,  0,  0,  0,  0,  5,-10,
   -10, 10, 10, 10, 10, 10, 10,-10,
   -10,  0, 10, 10, 10, 10,  0,-10,
   -10,  5,  5, 10, 10,  5,  5,-10,
   -10,  0,  5, 10, 10,  5,  0,-10,
   -10,  0,  0,  0,  0,  0,  0,-10,
   -20,-10,-10,-10,-10,-10,-10,-20]

/-- `Evaluate::rookTable`. -/
def rookTable : List Int :=
  [ 0,  0,  5, 10, 10,  5,  0,  0,
   -5,  0,  0,  0,  0,  0,  0, -5,
   -5,  0,  0,  0,  0,  0,  0, -5,
   -5,  0,  0,  0,  0,  0,  0, -5,
   -5,  0,  0,  0,  0,  0,  0, -5,
   -5,  0,  0,  0,  0,  0,  0, -5,
    5, 10, 10, 10, 10, 10, 10,  5,
    0,  0,  0,  0,  0,  0,  0,  0]

/-- `Evaluate::queenTable`. -/
def queenTable : List Int :=
  [-20,-10,-10, -5, -5,-10,-10,-20,
   -10,  0,  0,  0,  0,  0,  0,-10,
   -10,  0,  5,  5,  5,  5,  0,-10,
    -5,  0,  5,  5,  5,  5,  0, -5,
     0,  0,  5,  5,  5,  5,  0, -5,
   -10,  5,  5,  5,  5,  5,  0,-10,
   -10,  0,  5,  0,  0,  0,  0,-10,
   -20,-10,-10, -5, -5,-10,-10,-20]

/-- `Evaluate::kingTable`. -/
def kingTable : List Int :=
  [-30,-40,-40,-50,-50,-40,-40,-30,
   -30,-40,-40,-50,-50,-40,-40,-30,
   -30,-40,-40,-50,-50,-40,-40,-30,
   -30,-40,-40,-50,-50,-40,-40,-30,
   -20,-30,-30,-40,-40,-30,-30,-20,
   -10,-20,-20,-20,-20,-20,-20,-10,
    20, 20,  0,  0,  0,  0, 20, 20,
    20, 30, 10,  0,  0, 10, 30, 20]

/-- `Evaluate::getMaterialValue`: PAWN 100, KNIGHT 320, BISHOP 330, ROOK 500,
QUEEN 900, KING 0, default 0 (evaluate.h constants). -/
def getMaterialValue : Piece → Int
  | PAWN => 100
  | KNIGHT => 320
  | BISHOP => 330
  | ROOK => 500
  | QUEEN => 900
  | KING => 0
  | EMPTY => 0

/-- `Evaluate::getPieceSquareValue`: the Black index is
`(square / 8) * 8 + (7 - square % 8)` (file mirror, as written in the
source), then the per-piece table is consulted. -/
def getPieceSquareValue (piece : Piece) (square : Int) (colour : Colour) : Int :=
  let idx : Int := if colour = WHITE then square else (square / 8) * 8 + (7 - square % 8)
  match piece with
  | PAWN => pawnTable.getD idx.toNat 0
  | KNIGHT => knightTable.getD idx.toNat 0
  | BISHOP => bishopTable.getD idx.toNat 0
  | ROOK => rookTable.getD idx.toNat 0
  | QUEEN => queenTable.getD idx.toNat 0
  | KING => kingTable.getD idx.toNat 0
  | EMPTY => 0

/-- `Evaluate::evaluateCastling`: ±20 per remaining right. -/
def evaluateCastling (b : Board) : Int :=
  let bonus : Int := 0
  let bonus := if b.getCastlingRights 0 then bonus + 20 else bonus
  let bonus := if b.getCastlingRights 1 then bonus + 20 else bonus
  let bonus := if b.getCastlingRights 2 then bonus - 20 else bonus
  if b.getCastlingRights 3 then bonus - 20 else bonus

/-- `Evaluate::evaluatePawnStructure`: linear doubled-pawn penalty per file,
signed by colour. -/
def evaluatePawnStructure (b : Board) : Int :=
  (List.range 8).foldl (fun score file =>
    let counts := (List.range 8).foldl (fun (wb : Int × Int) rank =>
      let s := b.getSquare (Board.toIndex (Int.ofNat file) (Int.ofNat rank))
      if s.piece = PAWN then
        if s.colour = WHITE then (wb.1 + 1, wb.2)
        else if s.colour = BLACK then (wb.1, wb.2 + 1)
        else wb
      else wb) ((0 : Int), (0 : Int))
    let score := if counts.1 > 1 then score - 10 * (counts.1 - 1) else score
    if counts.2 > 1 then score + 10 * (counts.2 - 1) else score) 0

/-- `Evaluate::evaluateMobility` (evaluate implementation, lines 284-291):
legal-move count of the current position, minus the legal-move count after
*attempting the dummy move "a2a3"* on a copy ("Dummy move to switch turn"). -/
def evaluateMobility (b : Board) : Int :=
  let whiteMoves := MoveGen.generateLegalMoves b
  let boardCopy := (b.makeMoveStr "a2a3").2
  let blackMoves := MoveGen.generateLegalMoves boardCopy
  (whiteMoves.length : Int) - (blackMoves.length : Int)

/-- `Evaluate::evaluateGameStatus`: "Placeholder: always returns 0 for now." -/
def evaluateGameStatus (_b : Board) : Int := 0

/-- `Evaluate::score`: per-square material + piece-square sum (added for
White, subtracted for Black), plus castling, pawn-structure, mobility and
game-status terms. -/
def score (b : Board) : Int :=
  let pieceSum := (List.range 64).foldl (fun score sq =>
    let piece := b.getSquare (Int.ofNat sq)
    if piece.piece = EMPTY then score
    else
      let material := getMaterialValue piece.piece
      let pst := getPieceSquareValue piece.piece (Int.ofNat sq) piece.colour
      if piece.colour = WHITE then score + (material + pst)
      else if piece.colour = BLACK then score - (material + pst)
      else score) 0
  pieceSum + evaluateCastling b + evaluatePawnStructure b
    + evaluateMobility b + evaluateGameStatus b

end Evaluate

/-! ## Search (search.h and its implementation file) -/

namespace Search

/-- `std::numeric_limits<int>::min()`. -/
def intMin : Int := -2147483648

/-- `std::numeric_limits<int>::max()`. -/
def intMax : Int := 2147483647

/-- The per-move ordering score inside `Search::orderMoves` (MVV/LVA-ish:
captures by victim value ×10 minus attacker value; flat bonuses for
promotion, castling and en passant). -/
def moveScore (b : Board) (move : Move) : Int :=
  let target := b.getSquare move.toSq
  let score : Int := 0
  let score := if target.piece ≠ EMPTY then
      score + Evaluate.getMaterialValue target.piece * 10
        - Evaluate.getMaterialValue (b.getSquare move.fromSq).piece
    else score
  let score := if move.promotion ≠ EMPTY then score + 900 else score
  let score := if move.isCastle then score + 50 else score
  if move.isEnPassant then score + 100 else score

/-- Insertion step of the descending sort modelling `std::sort` with the
`a.first > b.first` comparator (a deterministic, stable realisation of the
unspecified-order C++ sort). -/
def insertDesc (p : Int × Move) : List (Int × Move) → List (Int × Move)
  | [] => [p]
  | q :: rest => if p.1 > q.1 then p :: q :: rest else q :: insertDesc p rest

/-- Descending stable sort by score. -/
def sortByScoreDesc (l : List (Int × Move)) : List (Int × Move) :=
  l.foldr insertDesc []

/-- `Search::orderMoves`: score each move, sort by descending score, return
the moves. -/
def orderMoves (b : Board) (moves : List Move) : List Move :=
  (sortByScoreDesc (moves.map (fun m => (moveScore b m, m)))).map (fun p => p.2)

/-- `Search::checkGameOver`: with no legal moves, `−100000 + ply` if the side
to move's king is attacked, 0 for stalemate; otherwise the evaluation. -/
def checkGameOver (b : Board) (ply : Nat) : Int :=
  let moves := MoveGen.generateLegalMoves b
  if moves.isEmpty then
    let opponent := if b.getSideToMove = WHITE then BLACK else WHITE
    let kingSq := MoveGen.findKingSquare b b.getSideToMove
    if MoveGen.isSquareAttacked b kingSq opponent then -100000 + (ply : Int)
    else 0
  else Evaluate.score b

/-- The maximising loop of `Search::minimax`: fold over the ordered moves
threading `alpha` and `maxEval`, with the beta cut-off (`break`) ending the
loop.  `recur` is the depth-decremented recursive call. -/
def abMaxLoop (recur : Board → Int → Int → Int) (b : Board) (beta : Int) :
    List Move → Int → Int → Int
  | [], _, maxEval => maxEval
  | move :: rest, alpha, maxEval =>
    let result := b.makeMove move
    if result.1 = false then abMaxLoop recur b beta rest alpha maxEval
    else
      let eval := recur result.2 alpha beta
      let maxEval' := max maxEval eval
      let alpha' := max alpha eval
      if beta ≤ alpha' then maxEval' -- Beta cut-off
      else abMaxLoop recur b beta rest alpha' maxEval'

/-- The minimising loop of `Search::minimax`, dual to `abMaxLoop`. -/
def abMinLoop (recur : Board → Int → Int → Int) (b : Board) (alpha : Int) :
    List Move → Int → Int → Int
  | [], _, minEval => minEval
  | move :: rest, beta, minEval =>
    let result := b.makeMove move
    if result.1 = false then abMinLoop recur b alpha rest beta minEval
    else
      let eval := recur result.2 alpha beta
      let minEval' := min minEval eval
      let beta' := min beta eval
      if beta' ≤ alpha then minEval' -- Alpha cut-off
      else abMinLoop recur b alpha rest beta' minEval'

/-- `Search::minimax` (search implementation, lines 46-86): alpha-beta
minimax; leaf evaluation at depth 0 (or `isGameOver`), terminal scoring when
no legal moves exist. -/
def minimax : Nat → Board → Int → Int → Bool → Int
  | 0, b, _, _, _ => Evaluate.score b
  | d + 1, b, alpha, beta, maximisingPlayer =>
    if b.isGameOver then Evaluate.score b
    else
      let moves := MoveGen.generateLegalMoves b
      if moves.isEmpty then checkGameOver b (d + 1)
      else
        let ordered := orderMoves b moves
        if maximisingPlayer then
          abMaxLoop (fun bc a bt => minimax d bc a bt false) b beta ordered alpha intMin
        else
          abMinLoop (fun bc a bt => minimax d bc a bt true) b alpha ordered beta intMax

/-- Modelled from the spec: "an unpruned full minimax (the same recursion
with the alpha-beta cutoff removed) over the same tree and the same move
ordering" — `Search::minimax` with the two cut-off `break`s (and the then
useless alpha/beta threading) removed, everything else identical. -/
def fullMinimax : Nat → Board → Bool → Int
  | 0, b, _ => Evaluate.score b
  | d + 1, b, maximisingPlayer =>
    if b.isGameOver then Evaluate.score b
    else
      let moves := MoveGen.generateLegalMoves b
      if moves.isEmpty then checkGameOver b (d + 1)
      else
        let ordered := orderMoves b moves
        if maximisingPlayer then
          ordered.foldl (fun maxEval move =>
            let result := b.makeMove move
            if result.1 then max maxEval (fullMinimax d result.2 false) else maxEval)
            intMin
        else
          ordered.foldl (fun minEval move =>
            let result := b.makeMove move
            if result.1 then min minEval (fullMinimax d result.2 true) else minEval)
            intMax

end Search

/-! ## Claim-support definitions -/

/-- Sequential application of a list of moves through `Board::makeMove`
(as a driver loop would do); a failing application leaves the board as the
code left it (unchanged). -/
def applyMoves : Board → List Move → Board
  | b, [] => b
  | b, m :: ms => applyMoves (b.makeMove m).2 ms

/-- Positions reachable from the initial position by at most `n` applications
of generated legal moves. -/
inductive ReachableWithin : Nat → Board → Prop where
  | start : ∀ n, ReachableWithin n Board.initial
  | step : ∀ n b m, ReachableWithin n b → m ∈ MoveGen.generateLegalMoves b →
      ReachableWithin (n + 1) (b.makeMove m).2

/-- The position after 1. e2e4 (Black to move, en-passant target e3). -/
def boardAfterE2E4 : Board := (Board.initial.makeMoveStr "e2e4").2

/-- A position in which Black, to move, is checkmated: Black king a8,
White queen b7, White king b6. -/
def matedBoard : Board :=
  { squares := fun i =>
      if i = 56 then ⟨KING, BLACK⟩
      else if i = 49 then ⟨QUEEN, WHITE⟩
      else if i = 41 then ⟨KING, WHITE⟩
      else Square.emptySq
    sideToMove := BLACK
    castlingRights := fun _ => false
    enPassantSquare := -1
    halfmoveClock := 0
    fullmoveNumber := 1 }

/-- A position with a White knight on g6 (index 46) able to capture the Black
rook on its home corner h8 (index 63); both sides retain all castling
rights. -/
def rookCaptureBoard : Board :=
  { squares := fun i =>
      if i = 46 then ⟨KNIGHT, WHITE⟩
      else if i = 63 then ⟨ROOK, BLACK⟩
      else if i = 4 then ⟨KING, WHITE⟩
      else if i = 60 then ⟨KING, BLACK⟩
      else Square.emptySq
    sideToMove := WHITE
    castlingRights := fun _ => true
    enPassantSquare := -1
    halfmoveClock := 0
    fullmoveNumber := 1 }

/-- The fail-soft alpha-beta relation between the true (unpruned) value `v`
of a node and the value `r` returned by the pruned search with window
`(alpha, beta)`: below the window `r` is an upper approximation not above
`alpha`, inside the window `r` is exact, above the window `r` is a lower
approximation not below `beta`. -/
def ABRel (alpha beta v r : Int) : Prop :=
  (v ≤ alpha → v ≤ r ∧ r ≤ alpha) ∧
  (alpha < v → v < beta → r = v) ∧
  (beta ≤ v → beta ≤ r ∧ r ≤ v)

/-- The loop body of the maximising fold of `fullMinimax`, with the child
value function `V` abstracted. -/
def maxFoldStep (b : Board) (V : Board → Int) : Int → Move → Int :=
  fun maxEval move =>
    let result := b.makeMove move
    if result.1 then max maxEval (V result.2) else maxEval

/-- The loop body of the minimising fold of `fullMinimax`, with the child
value function `V` abstracted. -/
def minFoldStep (b : Board) (V : Board → Int) : Int → Move → Int :=
  fun minEval move =>
    let result := b.makeMove move
    if result.1 then min minEval (V result.2) else minEval

/-! ## Theorems -/

/-- C10: `Board::getSquare` is total: outside [0, 64) it returns the empty
square value (EMPTY, NO_COLOUR) without consulting the board array, and in
range it returns the stored content. -/
theorem getSquare_total (b : Board) (index : Int) :
    (index < 0 ∨ 64 ≤ index → b.getSquare index = Square.emptySq) ∧
    (0 ≤ index → index < 64 → b.getSquare index = b.squares index.toNat) := by
  refine ⟨fun h => ?_, fun h1 h2 => ?_⟩
  · simp only [Board.getSquare, if_pos h]
  · simp only [Board.getSquare]
    rw [if_neg (by omega)]

/-- Witness for `getSquare_total` at the out-of-range index 64 and the
in-range index 0 of the initial board. -/
theorem getSquare_total_witness :
    Board.initial.getSquare 64 = Square.emptySq ∧
    Board.initial.getSquare 0 = Board.initial.squares (Int.toNat 0) :=
  ⟨(getSquare_total Board.initial 64).1 (Or.inr (by norm_num)),
   (getSquare_total Board.initial 0).2 (by norm_num) (by norm_num)⟩

/-- C3 (failing input): the quiet knight move b1c3 from the initial position
(destination empty, mover not a pawn) leaves the halfmove clock at 0, whereas
the claim requires it to be incremented to 1.  The C++ tests
`destination.piece != EMPTY` only after `destination = source`, so the test
always sees the moved piece and the clock is reset on every standard move. -/
theorem quiet_move_resets_halfmove_clock :
    Board.initial.halfmoveClock = 0 ∧
    (Board.initial.getSquare 1).piece = KNIGHT ∧
    Board.initial.getSquare 18 = Square.emptySq ∧
    (Board.initial.makeMove ⟨1, 18, EMPTY, false, false⟩).1 = true ∧
    (Board.initial.makeMove ⟨1, 18, EMPTY, false, false⟩).2.halfmoveClock = 0 := by
  decide

/-- C4 (failing input): the White knight g6xh8 captures the Black rook on its
home corner h8, yet Black's kingside castling flag (index 2) remains `true`
afterwards; the claim requires it to be `false`.  The C++ "If rook is
captured" test reads `squares[move.to]` after the move has been applied, so
it sees the arriving knight, not the captured rook. -/
theorem knight_captures_corner_rook_keeps_right :
    rookCaptureBoard.getSquare 63 = ⟨ROOK, BLACK⟩ ∧
    rookCaptureBoard.castlingRights 2 = true ∧
    (rookCaptureBoard.makeMove ⟨46, 63, EMPTY, false, false⟩).1 = true ∧
    (rookCaptureBoard.makeMove ⟨46, 63, EMPTY, false, false⟩).2.castlingRights 2 = true := by
  decide

/-- On failure `Board::makeMove` has not assigned any member: the returned
state is the input state. -/
theorem makeMove_fail_eq (b : Board) (m : Move) (h : (b.makeMove m).1 = false) :
    (b.makeMove m).2 = b := by
  simp only [Board.makeMove] at h ⊢
  split_ifs at h ⊢ <;> simp_all

/-- On failure `Board::makeMove(const std::string&)` leaves the board
unchanged (parse failure or application failure). -/
theorem makeMoveStr_fail_eq (b : Board) (s : String) (h : (b.makeMoveStr s).1 = false) :
    (b.makeMoveStr s).2 = b := by
  revert h
  unfold Board.makeMoveStr
  cases hp : b.parseMove s with
  | none => intro _; rfl
  | some m => intro h; exact makeMove_fail_eq b m h

/-- C7: `makeMove` fails exactly when the source square does not hold a
mover-coloured piece (or is empty), or the move is flagged as a castle whose
preconditions (`isLegalCastle`: rights flag and empty in-between squares)
fail, or the move is flagged as en passant with a destination different from
the current en-passant target; and a failing `makeMove` leaves every field of
the board unchanged.  (The code tests the castle flag before the en-passant
flag, so the characterisation is stated for moves that do not carry both
flags at once — no move built by `parseMove` or the generator ever does.) -/
theorem makeMove_failure_characterisation (b : Board) (m : Move)
    (hflags : ¬(m.isCastle = true ∧ m.isEnPassant = true)) :
    ((b.makeMove m).1 = false ↔
      ((readSq b.squares m.fromSq).colour ≠ b.sideToMove ∨
        (readSq b.squares m.fromSq).piece = EMPTY) ∨
      (m.isCastle = true ∧ b.isLegalCastle m = false) ∨
      (m.isEnPassant = true ∧ b.enPassantSquare ≠ m.toSq)) ∧
    ((b.makeMove m).1 = false → (b.makeMove m).2 = b) := by
  refine ⟨?_, makeMove_fail_eq b m⟩
  by_cases hsrc : (readSq b.squares m.fromSq).colour ≠ b.sideToMove ∨
      (readSq b.squares m.fromSq).piece = EMPTY
  · simp [Board.makeMove, hsrc]
  · cases hc : m.isCastle with
    | true =>
      have hep : m.isEnPassant = false := by
        cases hep : m.isEnPassant with
        | true => exact absurd ⟨hc, hep⟩ hflags
        | false => rfl
      cases hlc : b.isLegalCastle m with
      | true => simp [Board.makeMove, hsrc, hc, hep, hlc]
      | false => simp [Board.makeMove, hsrc, hc, hep, hlc]
    | false =>
      cases hep : m.isEnPassant with
      | true =>
        by_cases heq : b.enPassantSquare = m.toSq
        · simp [Board.makeMove, hsrc, hc, hep, heq, Board.isLegalEnPassantMove]
        · simp [Board.makeMove, hsrc, hc, hep, heq, Board.isLegalEnPassantMove]
      | false => simp [Board.makeMove, hsrc, hc, hep]

/-- Witness for `makeMove_failure_characterisation`: moving from a7 (a Black
pawn) while White is to move fails and leaves the initial board unchanged. -/
theorem makeMove_failure_characterisation_witness :
    (Board.initial.makeMove ⟨48, 40, EMPTY, false, false⟩).1 = false ∧
    (Board.initial.makeMove ⟨48, 40, EMPTY, false, false⟩).2 = Board.initial := by
  have h := makeMove_failure_characterisation Board.initial ⟨48, 40, EMPTY, false, false⟩
    (by decide)
  have h1 : (Board.initial.makeMove ⟨48, 40, EMPTY, false, false⟩).1 = false :=
    h.1.mpr (Or.inl (by decide))
  exact ⟨h1, h.2 h1⟩

/-- Writing `false` into one castling flag can only clear flags. -/
theorem writeCR_false_mono (c : Fin 4 → Bool) (k : Fin 4) (i : Fin 4)
    (h : writeCR c k false i = true) : c i = true := by
  unfold writeCR at h
  by_cases hik : i = k
  · rw [if_pos hik] at h; exact absurd h (by simp)
  · rwa [if_neg hik] at h

/-- A conditional single-flag clear preserves "only clears flags". -/
theorem crStep (c0 c : Fin 4 → Bool) (p : Prop) [Decidable p] (k : Fin 4)
    (h : ∀ i, c i = true → c0 i = true) :
    ∀ i, (if p then writeCR c k false else c) i = true → c0 i = true := by
  intro i hi
  by_cases hp : p
  · rw [if_pos hp] at hi; exact h i (writeCR_false_mono c k i hi)
  · rw [if_neg hp] at hi; exact h i hi

/-- A conditional double-flag clear preserves "only clears flags". -/
theorem crStep2 (c0 c : Fin 4 → Bool) (p : Prop) [Decidable p] (k k' : Fin 4)
    (h : ∀ i, c i = true → c0 i = true) :
    ∀ i, (if p then writeCR (writeCR c k false) k' false else c) i = true →
      c0 i = true := by
  intro i hi
  by_cases hp : p
  · rw [if_pos hp] at hi
    exact h i (writeCR_false_mono c k i (writeCR_false_mono _ k' i hi))
  · rw [if_neg hp] at hi; exact h i hi

/-- `Board::updateCastlingRights` only ever clears flags. -/
theorem updateCR_mono (move : Move) (cr : Fin 4 → Bool) (sqs : Nat → Square) :
    ∀ i, Board.updateCastlingRightsFun move cr sqs i = true → cr i = true := by
  simp only [Board.updateCastlingRightsFun]
  exact crStep _ _ _ _ (crStep _ _ _ _ (crStep _ _ _ _ (crStep _ _ _ _
    (crStep _ _ _ _ (crStep _ _ _ _ (crStep _ _ _ _ (crStep _ _ _ _
      (crStep2 _ _ _ _ _ (crStep2 _ _ _ _ _ (fun _ h => h))))))))))

/-- One `makeMove` application never sets a cleared castling flag. -/
theorem makeMove_castlingRights_mono (b : Board) (m : Move) (i : Fin 4)
    (h : ((b.makeMove m).2).castlingRights i = true) : b.castlingRights i = true := by
  simp only [Board.makeMove] at h
  split_ifs at h <;> first
    | exact h
    | exact updateCR_mono _ _ _ i h

/-- C8: over any sequence of `makeMove` applications each of the four
castling-rights flags is non-increasing — if a flag is set after the
sequence it was set before it (and, since `b` and `ms` are arbitrary, the
same holds between any two intermediate positions).  The flags are only ever
written by `updateCastlingRights`, which only clears them. -/
theorem castling_rights_monotone (b : Board) (ms : List Move) (i : Fin 4)
    (h : (applyMoves b ms).castlingRights i = true) : b.castlingRights i = true := by
  induction ms generalizing b with
  | nil => exact h
  | cons m ms ih => exact makeMove_castlingRights_mono b m i (ih _ h)

/-- Witness for `castling_rights_monotone`: after 1. b1c3 White's kingside
flag is still set, hence it was set initially. -/
theorem castling_rights_monotone_witness : Board.initial.castlingRights 0 = true :=
  castling_rights_monotone Board.initial [⟨1, 18, EMPTY, false, false⟩] 0 (by decide)

/-- Every move kept by `generateLegalMoves` applies successfully and leaves
the mover's (located) king un-attacked by the opponent, by construction of
the legality filter. -/
theorem legalMoves_king_safe (b : Board) (m : Move)
    (hm : m ∈ MoveGen.generateLegalMoves b) :
    (b.makeMove m).1 = true ∧
    MoveGen.findKingSquare (b.makeMove m).2 b.getSideToMove ≠ -1 ∧
    MoveGen.isSquareAttacked (b.makeMove m).2
      (MoveGen.findKingSquare (b.makeMove m).2 b.getSideToMove)
      (if b.getSideToMove = WHITE then BLACK else WHITE) = false := by
  have h := (List.mem_filter.mp hm).2
  by_cases h1 : (b.makeMove m).1 = false
  · simp [h1] at h
  · have h1' : (b.makeMove m).1 = true := by
      revert h1; cases (b.makeMove m).1 <;> simp
    simp only [h1', Bool.true_eq_false, if_neg, if_false] at h
    have h' := of_decide_eq_true h
    exact ⟨h1', h'.1, h'.2⟩

/-- C1: for every position reachable from the initial position by generated
legal moves, every move returned by `generateLegalMoves` applies successfully
to a copy and yields a position in which the mover's own king (as located by
`findKingSquare`) is not attacked by the opposing colour according to
`isSquareAttacked`. -/
theorem reachable_legal_moves_king_safe (n : Nat) (b : Board)
    (_hb : ReachableWithin n b) (m : Move)
    (hm : m ∈ MoveGen.generateLegalMoves b) :
    (b.makeMove m).1 = true ∧
    MoveGen.findKingSquare (b.makeMove m).2 b.getSideToMove ≠ -1 ∧
    MoveGen.isSquareAttacked (b.makeMove m).2
      (MoveGen.findKingSquare (b.makeMove m).2 b.getSideToMove)
      (if b.getSideToMove = WHITE then BLACK else WHITE) = false :=
  legalMoves_king_safe b m hm

/-- Witness for `reachable_legal_moves_king_safe`: the generated legal move
b1c3 at the initial position (reachable in 0 plies). -/
theorem reachable_legal_moves_king_safe_witness :
    (Board.initial.makeMove ⟨1, 18, EMPTY, false, false⟩).1 = true ∧
    MoveGen.findKingSquare (Board.initial.makeMove ⟨1, 18, EMPTY, false, false⟩).2
      Board.initial.getSideToMove ≠ -1 ∧
    MoveGen.isSquareAttacked (Board.initial.makeMove ⟨1, 18, EMPTY, false, false⟩).2
      (MoveGen.findKingSquare (Board.initial.makeMove ⟨1, 18, EMPTY, false, false⟩).2
        Board.initial.getSideToMove)
      (if Board.initial.getSideToMove = WHITE then BLACK else WHITE) = false :=
  reachable_legal_moves_king_safe 0 Board.initial (ReachableWithin.start 0)
    ⟨1, 18, EMPTY, false, false⟩ (by decide)

/-- C5 (counterexample): at `matedBoard` the side to move (Black, the
minimising side: `maximisingPlayer = false`) has no legal moves and its king
is attacked, yet the score returned by the search is `-100000 + 1 = -99999`,
which is negative — the claim requires a positive score when the minimising
side is checkmated.  `Search::checkGameOver` returns `-100000 + ply` for
every mate, regardless of which side is mated. -/
theorem mate_score_sign_counterexample :
    MoveGen.generateLegalMoves matedBoard = [] ∧
    MoveGen.isSquareAttacked matedBoard
      (MoveGen.findKingSquare matedBoard matedBoard.getSideToMove)
      (if matedBoard.getSideToMove = WHITE then BLACK else WHITE) = true ∧
    Search.minimax 1 matedBoard Search.intMin Search.intMax false = -99999 ∧
    ¬ 0 < Search.minimax 1 matedBoard Search.intMin Search.intMax false := by
  decide

/-- C5 (amended): whenever the search reaches a node with no legal moves and
the side to move's king attacked, the returned terminal score is
`-100000 + remaining depth` — magnitude of order 100000 shifted by the
remaining depth, but always negative (for reasonable depths), whichever side
is mated. -/
theorem mate_terminal_score (b : Board) (d : Nat) (alpha beta : Int) (mp : Bool)
    (hempty : MoveGen.generateLegalMoves b = [])
    (hatt : MoveGen.isSquareAttacked b
      (MoveGen.findKingSquare b b.getSideToMove)
      (if b.getSideToMove = WHITE then BLACK else WHITE) = true) :
    Search.minimax (d + 1) b alpha beta mp = -100000 + ((d : Int) + 1) := by
  simp [Search.minimax, Board.isGameOver, hempty, Search.checkGameOver, hatt]

/-- Witness for `mate_terminal_score` at `matedBoard`, remaining depth 1. -/
theorem mate_terminal_score_witness :
    Search.minimax 1 matedBoard Search.intMin Search.intMax false =
      -100000 + ((0 : Int) + 1) :=
  mate_terminal_score matedBoard 0 Search.intMin Search.intMax false
    (by decide) (by decide)

/-- C6 (counterexample): in the position after 1. e2e4 (Black to move), the
mobility term contributed to `Evaluate::score` is 0, while the difference
between the side-to-move's legal-move count (20) and the opponent's
legal-move count in that position (32) is −12.  The code's "dummy move to
switch turn" (`a2a3`) fails when Black is to move, so both counts it
subtracts are counts for the same side. -/
theorem mobility_counterexample :
    boardAfterE2E4.getSideToMove = BLACK ∧
    Evaluate.evaluateMobility boardAfterE2E4 = 0 ∧
    (MoveGen.generateLegalMoves boardAfterE2E4).length = 20 ∧
    (MoveGen.generateLegalMoves { boardAfterE2E4 with sideToMove := WHITE }).length = 32 ∧
    Evaluate.evaluateMobility boardAfterE2E4 ≠
      ((MoveGen.generateLegalMoves boardAfterE2E4).length : Int) -
      ((MoveGen.generateLegalMoves { boardAfterE2E4 with sideToMove := WHITE }).length : Int) := by
  decide

/-- The mobility term, unfolded (definitional). -/
theorem evaluateMobility_eq (b : Board) :
    Evaluate.evaluateMobility b =
      ((MoveGen.generateLegalMoves b).length : Int) -
      ((MoveGen.generateLegalMoves (b.makeMoveStr "a2a3").2).length : Int) := rfl

/-- C6 (amended): the mobility term equals the side-to-move's legal-move
count minus the legal-move count of the position left by *attempting the
fixed dummy move "a2a3"*; in particular, whenever that attempt fails (e.g.
whenever a2 does not hold a piece of the side to move) the term is 0. -/
theorem evaluateMobility_characterisation (b : Board) :
    Evaluate.evaluateMobility b =
      ((MoveGen.generateLegalMoves b).length : Int) -
      ((MoveGen.generateLegalMoves (b.makeMoveStr "a2a3").2).length : Int) ∧
    ((b.makeMoveStr "a2a3").1 = false → Evaluate.evaluateMobility b = 0) := by
  constructor
  · exact evaluateMobility_eq b
  · intro h
    have heq : (b.makeMoveStr "a2a3").2 = b := makeMoveStr_fail_eq b _ h
    simp [Evaluate.evaluateMobility, heq]

/-- Witness for `evaluateMobility_characterisation`: after 1. e2e4 the dummy
move fails (Black to move) and the mobility term is 0. -/
theorem evaluateMobility_characterisation_witness :
    Evaluate.evaluateMobility boardAfterE2E4 = 0 :=
  (evaluateMobility_characterisation boardAfterE2E4).2 (by decide)

/-- C2 (supporting evidence, depth 1): perft from the initial position at
depth 1 counts exactly 20 leaf nodes. -/
theorem perft_initial_depth1 : Perft.run Board.initial 1 = 20 := by decide

/-! ### C9 infrastructure: fold and ordering lemmas -/

/-- The exact relation holds vacuously between a value and itself. -/
theorem ABRel_self (alpha beta v : Int) : ABRel alpha beta v v :=
  ⟨fun h => ⟨le_refl v, h⟩, fun _ _ => rfl, fun h => ⟨h, le_refl v⟩⟩

/-- Pulling a `max` out of the initial accumulator of the guarded max-fold. -/
theorem foldl_if_max_extract (ok : Move → Bool) (v : Move → Int) (l : List Move)
    (x y : Int) :
    List.foldl (fun acc m => if ok m then max acc (v m) else acc) (max x y) l =
      max x (List.foldl (fun acc m => if ok m then max acc (v m) else acc) y l) := by
  induction l generalizing y with
  | nil => rfl
  | cons m rest ih =>
    show List.foldl _ (if ok m = true then (max x y) ⊔ v m else max x y) rest =
      max x (List.foldl _ (if ok m = true then y ⊔ v m else y) rest)
    by_cases hok : ok m = true
    · rw [if_pos hok, if_pos hok]
      show List.foldl _ (max (max x y) (v m)) rest = _
      rw [max_assoc]
      exact ih _
    · rw [if_neg hok, if_neg hok]
      exact ih _

/-- Pulling a `min` out of the initial accumulator of the guarded min-fold. -/
theorem foldl_if_min_extract (ok : Move → Bool) (v : Move → Int) (l : List Move)
    (x y : Int) :
    List.foldl (fun acc m => if ok m then min acc (v m) else acc) (min x y) l =
      min x (List.foldl (fun acc m => if ok m then min acc (v m) else acc) y l) := by
  induction l generalizing y with
  | nil => rfl
  | cons m rest ih =>
    show List.foldl _ (if ok m = true then (min x y) ⊓ v m else min x y) rest =
      min x (List.foldl _ (if ok m = true then y ⊓ v m else y) rest)
    by_cases hok : ok m = true
    · rw [if_pos hok, if_pos hok]
      show List.foldl _ (min (min x y) (v m)) rest = _
      rw [min_assoc]
      exact ih _
    · rw [if_neg hok, if_neg hok]
      exact ih _

/-- The guarded max-fold never drops below its initial accumulator. -/
theorem foldl_if_max_ge (ok : Move → Bool) (v : Move → Int) (l : List Move)
    (a : Int) :
    a ≤ List.foldl (fun acc m => if ok m then max acc (v m) else acc) a l := by
  induction l generalizing a with
  | nil => exact le_refl a
  | cons m rest ih =>
    simp only [List.foldl_cons]
    refine le_trans ?_ (ih _)
    by_cases hok : ok m = true
    · rw [if_pos hok]; exact le_max_left a (v m)
    · rw [if_neg hok]

/-- The guarded min-fold never rises above its initial accumulator. -/
theorem foldl_if_min_le (ok : Move → Bool) (v : Move → Int) (l : List Move)
    (a : Int) :
    List.foldl (fun acc m => if ok m then min acc (v m) else acc) a l ≤ a := by
  induction l generalizing a with
  | nil => exact le_refl a
  | cons m rest ih =>
    simp only [List.foldl_cons]
    refine le_trans (ih _) ?_
    by_cases hok : ok m = true
    · rw [if_pos hok]; exact min_le_left a (v m)
    · rw [if_neg hok]

/-- Upper bound of the guarded max-fold from bounds on the accumulator and
the pushed values. -/
theorem foldl_if_max_le_bound (ok : Move → Bool) (v : Move → Int) (l : List Move)
    (a B : Int) (ha : a ≤ B) (hv : ∀ m, v m ≤ B) :
    List.foldl (fun acc m => if ok m then max acc (v m) else acc) a l ≤ B := by
  induction l generalizing a with
  | nil => exact ha
  | cons m rest ih =>
    simp only [List.foldl_cons]
    refine ih _ ?_
    by_cases hok : ok m = true
    · rw [if_pos hok]; exact max_le ha (hv m)
    · rwa [if_neg hok]

/-- Lower bound of the guarded min-fold from bounds on the accumulator and
the pushed values. -/
theorem foldl_if_min_ge_bound (ok : Move → Bool) (v : Move → Int) (l : List Move)
    (a B : Int) (ha : B ≤ a) (hv : ∀ m, B ≤ v m) :
    B ≤ List.foldl (fun acc m => if ok m then min acc (v m) else acc) a l := by
  induction l generalizing a with
  | nil => exact ha
  | cons m rest ih =>
    simp only [List.foldl_cons]
    refine ih _ ?_
    by_cases hok : ok m = true
    · rw [if_pos hok]; exact le_min ha (hv m)
    · rwa [if_neg hok]

/-- Membership through one insertion step of the ordering sort. -/
theorem mem_insertDesc (p q : Int × Move) (l : List (Int × Move)) :
    q ∈ Search.insertDesc p l ↔ q = p ∨ q ∈ l := by
  induction l with
  | nil => simp [Search.insertDesc]
  | cons r rest ih =>
    simp only [Search.insertDesc]
    by_cases h : p.1 > r.1
    · rw [if_pos h]; simp
    · rw [if_neg h]; simp [ih]; tauto

/-- Membership is preserved by the ordering sort. -/
theorem mem_sortByScoreDesc (q : Int × Move) (l : List (Int × Move)) :
    q ∈ Search.sortByScoreDesc l ↔ q ∈ l := by
  induction l with
  | nil => simp [Search.sortByScoreDesc]
  | cons r rest ih =>
    show q ∈ Search.insertDesc r (Search.sortByScoreDesc rest) ↔ _
    rw [mem_insertDesc, ih]
    simp

/-- `orderMoves` only permutes: each ordered move came from the input. -/
theorem mem_of_mem_orderMoves (b : Board) (moves : List Move) (m : Move)
    (h : m ∈ Search.orderMoves b moves) : m ∈ moves := by
  simp only [Search.orderMoves] at h
  obtain ⟨p, hp, hpm⟩ := List.mem_map.mp h
  rw [mem_sortByScoreDesc] at hp
  obtain ⟨m', hm', hm'p⟩ := List.mem_map.mp hp
  rw [← hpm, ← hm'p]
  exact hm'

/-- Insertion grows the length by one. -/
theorem length_insertDesc (p : Int × Move) (l : List (Int × Move)) :
    (Search.insertDesc p l).length = l.length + 1 := by
  induction l with
  | nil => rfl
  | cons r rest ih =>
    simp only [Search.insertDesc]
    by_cases h : p.1 > r.1
    · rw [if_pos h]; rfl
    · rw [if_neg h]; simp [ih]

/-- The ordering sort preserves length. -/
theorem length_sortByScoreDesc (l : List (Int × Move)) :
    (Search.sortByScoreDesc l).length = l.length := by
  induction l with
  | nil => rfl
  | cons r rest ih =>
    show (Search.insertDesc r (Search.sortByScoreDesc rest)).length = _
    rw [length_insertDesc, ih]
    rfl

/-- `orderMoves` preserves length (hence non-emptiness). -/
theorem length_orderMoves (b : Board) (moves : List Move) :
    (Search.orderMoves b moves).length = moves.length := by
  simp [Search.orderMoves, length_sortByScoreDesc]

/-- Every move kept by the legality filter applies successfully. -/
theorem legal_move_ok (b : Board) (m : Move)
    (hm : m ∈ MoveGen.generateLegalMoves b) : (b.makeMove m).1 = true :=
  (legalMoves_king_safe b m hm).1

/-- Unfolding equation for `maxFoldStep`. -/
theorem maxFoldStep_eq (b : Board) (V : Board → Int) (a : Int) (m : Move) :
    maxFoldStep b V a m =
      if (b.makeMove m).1 = true then max a (V (b.makeMove m).2) else a := rfl

/-- Unfolding equation for `minFoldStep`. -/
theorem minFoldStep_eq (b : Board) (V : Board → Int) (a : Int) (m : Move) :
    minFoldStep b V a m =
      if (b.makeMove m).1 = true then min a (V (b.makeMove m).2) else a := rfl

/-- `foldl_if_max_extract` specialised to `maxFoldStep`. -/
theorem foldl_maxFoldStep_extract (b : Board) (V : Board → Int) (l : List Move)
    (x y : Int) :
    List.foldl (maxFoldStep b V) (max x y) l =
      max x (List.foldl (maxFoldStep b V) y l) :=
  foldl_if_max_extract (fun m => (b.makeMove m).1) (fun m => V (b.makeMove m).2) l x y

/-- `foldl_if_min_extract` specialised to `minFoldStep`. -/
theorem foldl_minFoldStep_extract (b : Board) (V : Board → Int) (l : List Move)
    (x y : Int) :
    List.foldl (minFoldStep b V) (min x y) l =
      min x (List.foldl (minFoldStep b V) y l) :=
  foldl_if_min_extract (fun m => (b.makeMove m).1) (fun m => V (b.makeMove m).2) l x y

/-- `foldl_if_max_ge` specialised to `maxFoldStep`. -/
theorem le_foldl_maxFoldStep (b : Board) (V : Board → Int) (l : List Move) (a : Int) :
    a ≤ List.foldl (maxFoldStep b V) a l :=
  foldl_if_max_ge (fun m => (b.makeMove m).1) (fun m => V (b.makeMove m).2) l a

/-- `foldl_if_min_le` specialised to `minFoldStep`. -/
theorem foldl_minFoldStep_le (b : Board) (V : Board → Int) (l : List Move) (a : Int) :
    List.foldl (minFoldStep b V) a l ≤ a :=
  foldl_if_min_le (fun m => (b.makeMove m).1) (fun m => V (b.makeMove m).2) l a

/-- `foldl_if_max_le_bound` specialised to `maxFoldStep`. -/
theorem foldl_maxFoldStep_le_bound (b : Board) (V : Board → Int) (l : List Move)
    (a B : Int) (ha : a ≤ B) (hv : ∀ m, V (b.makeMove m).2 ≤ B) :
    List.foldl (maxFoldStep b V) a l ≤ B :=
  foldl_if_max_le_bound (fun m => (b.makeMove m).1) (fun m => V (b.makeMove m).2) l a B ha hv

/-- `foldl_if_min_ge_bound` specialised to `minFoldStep`. -/
theorem foldl_minFoldStep_ge_bound (b : Board) (V : Board → Int) (l : List Move)
    (a B : Int) (ha : B ≤ a) (hv : ∀ m, B ≤ V (b.makeMove m).2) :
    B ≤ List.foldl (minFoldStep b V) a l :=
  foldl_if_min_ge_bound (fun m => (b.makeMove m).1) (fun m => V (b.makeMove m).2) l a B ha hv

/-- One-step unfolding of the maximising alpha-beta loop on a cons cell. -/
theorem abMaxLoop_cons (recur : Board → Int → Int → Int) (b : Board)
    (beta : Int) (m : Move) (rest : List Move) (alpha acc : Int) :
    Search.abMaxLoop recur b beta (m :: rest) alpha acc =
      (if (b.makeMove m).1 = false then
        Search.abMaxLoop recur b beta rest alpha acc
      else if beta ≤ max alpha (recur (b.makeMove m).2 alpha beta) then
        max acc (recur (b.makeMove m).2 alpha beta)
      else
        Search.abMaxLoop recur b beta rest
          (max alpha (recur (b.makeMove m).2 alpha beta))
          (max acc (recur (b.makeMove m).2 alpha beta))) := rfl

/-- The maximising alpha-beta loop is fail-soft correct with respect to the
unpruned maximising fold: given that every recursive call satisfies the
fail-soft relation `ABRel` for its window, the loop result satisfies it for
the full fold value over the same move list. -/
theorem abMaxLoop_ABRel (recur : Board → Int → Int → Int) (V : Board → Int)
    (b : Board)
    (hrec : ∀ bc a bt, a < bt → ABRel a bt (V bc) (recur bc a bt)) :
    ∀ (ms : List Move) (beta alpha acc : Int), alpha < beta →
      ABRel alpha beta (List.foldl (maxFoldStep b V) acc ms)
        (Search.abMaxLoop recur b beta ms alpha acc) := by
  intro ms
  induction ms with
  | nil =>
    intro beta alpha acc _
    exact ABRel_self alpha beta acc
  | cons m rest ih =>
    intro beta alpha acc hab
    rw [abMaxLoop_cons, List.foldl_cons, maxFoldStep_eq]
    by_cases hok : (b.makeMove m).1 = true
    case neg =>
      have hok' : (b.makeMove m).1 = false := by
        revert hok; cases (b.makeMove m).1 <;> simp
      rw [if_neg hok, if_pos hok']
      exact ih beta alpha acc hab
    case pos =>
      rw [if_pos hok, if_neg (by simp [hok])]
      obtain ⟨A1, A2, A3⟩ := hrec (b.makeMove m).2 alpha beta hab
      by_cases hcut : beta ≤ max alpha (recur (b.makeMove m).2 alpha beta)
      · rw [if_pos hcut]
        have hbe : beta ≤ recur (b.makeMove m).2 alpha beta := by
          rcases le_max_iff.mp hcut with h | h
          · linarith
          · exact h
        have hbv : beta ≤ V (b.makeMove m).2 := by
          by_contra hlt
          push_neg at hlt
          by_cases h1 : V (b.makeMove m).2 ≤ alpha
          · have := (A1 h1).2
            linarith
          · push_neg at h1
            have := A2 h1 hlt
            linarith
        obtain ⟨hbe2, hev⟩ := A3 hbv
        have hG : max acc (V (b.makeMove m).2) ≤
            List.foldl (maxFoldStep b V) (max acc (V (b.makeMove m).2)) rest :=
          le_foldl_maxFoldStep b V rest _
        have hvG : V (b.makeMove m).2 ≤
            List.foldl (maxFoldStep b V) (max acc (V (b.makeMove m).2)) rest :=
          le_trans (le_max_right _ _) hG
        have haccG : acc ≤
            List.foldl (maxFoldStep b V) (max acc (V (b.makeMove m).2)) rest :=
          le_trans (le_max_left _ _) hG
        refine ⟨fun hle => absurd hle (not_le.mpr (by linarith)),
          fun _ h2 => absurd h2 (not_lt.mpr (by linarith)),
          fun _ => ⟨le_trans hbe (le_max_right _ _),
            max_le haccG (le_trans hev hvG)⟩⟩
      · rw [if_neg hcut]
        push_neg at hcut
        have he_lt : recur (b.makeMove m).2 alpha beta < beta :=
          lt_of_le_of_lt (le_max_right _ _) hcut
        have ihr := ih beta (max alpha (recur (b.makeMove m).2 alpha beta))
          (max acc (recur (b.makeMove m).2 alpha beta)) hcut
        have hdv : List.foldl (maxFoldStep b V) (max acc (V (b.makeMove m).2)) rest =
            max (V (b.makeMove m).2) (List.foldl (maxFoldStep b V) acc rest) := by
          rw [max_comm acc, foldl_maxFoldStep_extract]
        have hde : List.foldl (maxFoldStep b V)
              (max acc (recur (b.makeMove m).2 alpha beta)) rest =
            max (recur (b.makeMove m).2 alpha beta)
              (List.foldl (maxFoldStep b V) acc rest) := by
          rw [max_comm acc, foldl_maxFoldStep_extract]
        rw [hdv]
        rw [hde] at ihr
        obtain ⟨I1, I2, I3⟩ := ihr
        by_cases hvh1 : V (b.makeMove m).2 ≤ alpha
        · -- child value below the window: the windowed call may overshoot but
          -- stays ≤ alpha, so the running alpha is unchanged
          obtain ⟨hve, hea⟩ := A1 hvh1
          rw [max_eq_left hea] at I1 I2 I3 ⊢
          refine ⟨?_, ?_, ?_⟩
          · intro hle
            have hG0 : List.foldl (maxFoldStep b V) acc rest ≤ alpha :=
              le_trans (le_max_right _ _) hle
            obtain ⟨i1, i2⟩ := I1 (max_le hea hG0)
            exact ⟨le_trans (max_le_max hve (le_refl _)) i1, i2⟩
          · intro h1 h2
            have hG0gt : alpha < List.foldl (maxFoldStep b V) acc rest := by
              rcases lt_max_iff.mp h1 with h | h
              · linarith
              · exact h
            have hveG : V (b.makeMove m).2 ≤ List.foldl (maxFoldStep b V) acc rest := by
              linarith
            have heG : recur (b.makeMove m).2 alpha beta ≤
                List.foldl (maxFoldStep b V) acc rest := by linarith
            rw [max_eq_right hveG] at h2 ⊢
            rw [max_eq_right heG] at I2
            exact I2 hG0gt h2
          · intro hge0
            have hG0 : beta ≤ List.foldl (maxFoldStep b V) acc rest := by
              rcases le_max_iff.mp hge0 with h | h
              · linarith
              · exact h
            have hveG : V (b.makeMove m).2 ≤ List.foldl (maxFoldStep b V) acc rest := by
              linarith
            have heG : recur (b.makeMove m).2 alpha beta ≤
                List.foldl (maxFoldStep b V) acc rest := by linarith
            rw [max_eq_right hveG]
            rw [max_eq_right heG] at I3
            exact I3 hG0
        · push_neg at hvh1
          by_cases hvh2 : V (b.makeMove m).2 < beta
          · -- child value inside the window: the windowed call is exact
            have hev : recur (b.makeMove m).2 alpha beta = V (b.makeMove m).2 :=
              A2 hvh1 hvh2
            rw [hev, max_eq_right (le_of_lt hvh1)] at I1 I2 I3 ⊢
            refine ⟨?_, ?_, ?_⟩
            · intro hle
              exact absurd hle
                (not_le.mpr (lt_of_lt_of_le hvh1 (le_max_left _ _)))
            · intro _ h2
              rcases lt_or_eq_of_le
                  (le_max_left (V (b.makeMove m).2)
                    (List.foldl (maxFoldStep b V) acc rest)) with hlt | heq
              · exact I2 hlt h2
              · obtain ⟨i1, i2⟩ := I1 (le_of_eq heq.symm)
                exact le_antisymm (le_trans i2 (le_of_eq heq)) i1
            · intro hge0
              exact I3 hge0
          · -- child value above the window: the cutoff would have fired
            push_neg at hvh2
            obtain ⟨hbe, _⟩ := A3 hvh2
            exact absurd hbe (not_le.mpr he_lt)

/-- One-step unfolding of the minimising alpha-beta loop on a cons cell. -/
theorem abMinLoop_cons (recur : Board → Int → Int → Int) (b : Board)
    (alpha : Int) (m : Move) (rest : List Move) (beta acc : Int) :
    Search.abMinLoop recur b alpha (m :: rest) beta acc =
      (if (b.makeMove m).1 = false then
        Search.abMinLoop recur b alpha rest beta acc
      else if min beta (recur (b.makeMove m).2 alpha beta) ≤ alpha then
        min acc (recur (b.makeMove m).2 alpha beta)
      else
        Search.abMinLoop recur b alpha rest
          (min beta (recur (b.makeMove m).2 alpha beta))
          (min acc (recur (b.makeMove m).2 alpha beta))) := rfl

/-- The minimising alpha-beta loop is fail-soft correct with respect to the
unpruned minimising fold; dual of `abMaxLoop_ABRel`. -/
theorem abMinLoop_ABRel (recur : Board → Int → Int → Int) (V : Board → Int)
    (b : Board)
    (hrec : ∀ bc a bt, a < bt → ABRel a bt (V bc) (recur bc a bt)) :
    ∀ (ms : List Move) (alpha beta acc : Int), alpha < beta →
      ABRel alpha beta (List.foldl (minFoldStep b V) acc ms)
        (Search.abMinLoop recur b alpha ms beta acc) := by
  intro ms
  induction ms with
  | nil =>
    intro alpha beta acc _
    exact ABRel_self alpha beta acc
  | cons m rest ih =>
    intro alpha beta acc hab
    rw [abMinLoop_cons, List.foldl_cons, minFoldStep_eq]
    by_cases hok : (b.makeMove m).1 = true
    case neg =>
      have hok' : (b.makeMove m).1 = false := by
        revert hok; cases (b.makeMove m).1 <;> simp
      rw [if_neg hok, if_pos hok']
      exact ih alpha beta acc hab
    case pos =>
      rw [if_pos hok, if_neg (by simp [hok])]
      obtain ⟨A1, A2, A3⟩ := hrec (b.makeMove m).2 alpha beta hab
      by_cases hcut : min beta (recur (b.makeMove m).2 alpha beta) ≤ alpha
      · rw [if_pos hcut]
        have hea : recur (b.makeMove m).2 alpha beta ≤ alpha := by
          rcases min_le_iff.mp hcut with h | h
          · linarith
          · exact h
        have hva : V (b.makeMove m).2 ≤ alpha := by
          by_contra hgt
          push_neg at hgt
          by_cases h2 : V (b.makeMove m).2 < beta
          · have := A2 hgt h2
            linarith
          · push_neg at h2
            obtain ⟨hbe, _⟩ := A3 h2
            linarith
        obtain ⟨hve, hea2⟩ := A1 hva
        have hG : List.foldl (minFoldStep b V) (min acc (V (b.makeMove m).2)) rest ≤
            min acc (V (b.makeMove m).2) :=
          foldl_minFoldStep_le b V rest _
        have hGv : List.foldl (minFoldStep b V) (min acc (V (b.makeMove m).2)) rest ≤
            V (b.makeMove m).2 :=
          le_trans hG (min_le_right _ _)
        have hGacc : List.foldl (minFoldStep b V) (min acc (V (b.makeMove m).2)) rest ≤
            acc :=
          le_trans hG (min_le_left _ _)
        refine ⟨?_, ?_, ?_⟩
        · intro _
          exact ⟨le_min hGacc (le_trans hGv hve), le_trans (min_le_right _ _) hea2⟩
        · intro h1 _
          exact absurd h1 (not_lt.mpr (by linarith))
        · intro hge
          exact absurd hge (not_le.mpr (by linarith))
      · rw [if_neg hcut]
        push_neg at hcut
        have he_gt : alpha < recur (b.makeMove m).2 alpha beta :=
          lt_of_lt_of_le hcut (min_le_right _ _)
        have ihr := ih alpha (min beta (recur (b.makeMove m).2 alpha beta))
          (min acc (recur (b.makeMove m).2 alpha beta)) hcut
        have hdv : List.foldl (minFoldStep b V) (min acc (V (b.makeMove m).2)) rest =
            min (V (b.makeMove m).2) (List.foldl (minFoldStep b V) acc rest) := by
          rw [min_comm acc, foldl_minFoldStep_extract]
        have hde : List.foldl (minFoldStep b V)
              (min acc (recur (b.makeMove m).2 alpha beta)) rest =
            min (recur (b.makeMove m).2 alpha beta)
              (List.foldl (minFoldStep b V) acc rest) := by
          rw [min_comm acc, foldl_minFoldStep_extract]
        rw [hdv]
        rw [hde] at ihr
        obtain ⟨I1, I2, I3⟩ := ihr
        by_cases hvh1 : beta ≤ V (b.makeMove m).2
        · -- child value above the window: the windowed call may undershoot
          -- but stays ≥ beta, so the running beta is unchanged
          obtain ⟨hbe, hev⟩ := A3 hvh1
          rw [min_eq_left hbe] at I1 I2 I3 ⊢
          refine ⟨?_, ?_, ?_⟩
          · intro hle
            have hG0 : List.foldl (minFoldStep b V) acc rest ≤ alpha := by
              rcases min_le_iff.mp hle with h | h
              · linarith
              · exact h
            have hveG : List.foldl (minFoldStep b V) acc rest ≤ V (b.makeMove m).2 := by
              linarith
            have heG : List.foldl (minFoldStep b V) acc rest ≤
                recur (b.makeMove m).2 alpha beta := by linarith
            rw [min_eq_right hveG]
            rw [min_eq_right heG] at I1
            exact I1 hG0
          · intro h1 h2
            have hG0lt : List.foldl (minFoldStep b V) acc rest < beta := by
              rcases min_lt_iff.mp h2 with h | h
              · linarith
              · exact h
            have hG0gt : alpha < List.foldl (minFoldStep b V) acc rest :=
              lt_of_lt_of_le h1 (min_le_right _ _)
            have hveG : List.foldl (minFoldStep b V) acc rest ≤ V (b.makeMove m).2 := by
              linarith
            have heG : List.foldl (minFoldStep b V) acc rest ≤
                recur (b.makeMove m).2 alpha beta := by linarith
            rw [min_eq_right hveG]
            rw [min_eq_right heG] at I2
            exact I2 hG0gt hG0lt
          · intro hge
            have hG0 : beta ≤ List.foldl (minFoldStep b V) acc rest :=
              le_trans hge (min_le_right _ _)
            obtain ⟨i1, i2⟩ := I3 (le_min hbe hG0)
            exact ⟨i1, le_trans i2 (min_le_min hev (le_refl _))⟩
        · push_neg at hvh1
          by_cases hvh2 : alpha < V (b.makeMove m).2
          · -- child value inside the window: the windowed call is exact
            have hev : recur (b.makeMove m).2 alpha beta = V (b.makeMove m).2 :=
              A2 hvh2 hvh1
            rw [hev, min_eq_right (le_of_lt hvh1)] at I1 I2 I3 ⊢
            refine ⟨?_, ?_, ?_⟩
            · exact fun hle => I1 hle
            · intro h1 _
              rcases lt_or_eq_of_le
                  (min_le_left (V (b.makeMove m).2)
                    (List.foldl (minFoldStep b V) acc rest)) with hlt | heq
              · exact I2 h1 hlt
              · obtain ⟨i1, i2⟩ := I3 (le_of_eq heq.symm)
                exact le_antisymm i2 (le_trans (le_of_eq heq) i1)
            · intro hge
              exact absurd hge
                (not_le.mpr (lt_of_le_of_lt (min_le_left _ _) hvh1))
          · push_neg at hvh2
            obtain ⟨_, hea⟩ := A1 hvh2
            exact absurd he_gt (not_lt.mpr hea)

/-- One-step unfolding of `Search.minimax` at positive depth. -/
theorem minimax_succ (d : Nat) (b : Board) (alpha beta : Int) (mp : Bool) :
    Search.minimax (d + 1) b alpha beta mp =
      (if b.isGameOver then Evaluate.score b
       else if (MoveGen.generateLegalMoves b).isEmpty then
         Search.checkGameOver b (d + 1)
       else if mp then
         Search.abMaxLoop (fun bc a bt => Search.minimax d bc a bt false) b beta
           (Search.orderMoves b (MoveGen.generateLegalMoves b)) alpha Search.intMin
       else
         Search.abMinLoop (fun bc a bt => Search.minimax d bc a bt true) b alpha
           (Search.orderMoves b (MoveGen.generateLegalMoves b)) beta
           Search.intMax) := rfl

/-- One-step unfolding of `Search.fullMinimax` at positive depth, with the
folds phrased via the step functions. -/
theorem fullMinimax_succ (d : Nat) (b : Board) (mp : Bool) :
    Search.fullMinimax (d + 1) b mp =
      (if b.isGameOver then Evaluate.score b
       else if (MoveGen.generateLegalMoves b).isEmpty then
         Search.checkGameOver b (d + 1)
       else if mp then
         List.foldl (maxFoldStep b (fun bc => Search.fullMinimax d bc false))
           Search.intMin (Search.orderMoves b (MoveGen.generateLegalMoves b))
       else
         List.foldl (minFoldStep b (fun bc => Search.fullMinimax d bc true))
           Search.intMax
           (Search.orderMoves b (MoveGen.generateLegalMoves b))) := rfl

/-- Fail-soft correctness of `Search::minimax` against the unpruned
`fullMinimax` at every node and window. -/
theorem minimax_ABRel (d : Nat) : ∀ (b : Board) (alpha beta : Int) (mp : Bool),
    alpha < beta →
    ABRel alpha beta (Search.fullMinimax d b mp) (Search.minimax d b alpha beta mp) := by
  induction d with
  | zero =>
    intro b alpha beta mp _
    exact ABRel_self alpha beta (Evaluate.score b)
  | succ d ih =>
    intro b alpha beta mp hab
    rw [minimax_succ, fullMinimax_succ]
    by_cases hgo : b.isGameOver = true
    · rw [if_pos hgo, if_pos hgo]
      exact ABRel_self alpha beta (Evaluate.score b)
    · rw [if_neg hgo, if_neg hgo]
      by_cases hemp : (MoveGen.generateLegalMoves b).isEmpty = true
      · rw [if_pos hemp, if_pos hemp]
        exact ABRel_self alpha beta (Search.checkGameOver b (d + 1))
      · rw [if_neg hemp, if_neg hemp]
        by_cases hmp : mp = true
        · rw [if_pos hmp, if_pos hmp]
          exact abMaxLoop_ABRel (fun bc a bt => Search.minimax d bc a bt false)
            (fun bc => Search.fullMinimax d bc false) b
            (fun bc a bt h => ih bc a bt false h)
            (Search.orderMoves b (MoveGen.generateLegalMoves b)) beta alpha
            Search.intMin hab
        · rw [if_neg hmp, if_neg hmp]
          exact abMinLoop_ABRel (fun bc a bt => Search.minimax d bc a bt true)
            (fun bc => Search.fullMinimax d bc true) b
            (fun bc a bt h => ih bc a bt true h)
            (Search.orderMoves b (MoveGen.generateLegalMoves b)) alpha beta
            Search.intMax hab

/-! ### C9 infrastructure: a uniform bound on `Evaluate::score` -/

/-- Material values lie in [0, 900]. -/
theorem getMaterialValue_bounds (p : Piece) :
    0 ≤ Evaluate.getMaterialValue p ∧ Evaluate.getMaterialValue p ≤ 900 := by
  cases p <;> decide

/-- `List.getD` with default 0 stays within ±50 when all entries do. -/
theorem getD_bound50 (l : List Int) (hl : ∀ x ∈ l, -50 ≤ x ∧ x ≤ 50) (n : Nat) :
    -50 ≤ l.getD n 0 ∧ l.getD n 0 ≤ 50 := by
  induction l generalizing n with
  | nil => simp [List.getD]
  | cons x xs ih =>
    cases n with
    | zero => simpa using hl x (List.mem_cons_self x xs)
    | succ n =>
      simpa [List.getD_cons_succ] using
        ih (fun y hy => hl y (List.mem_cons_of_mem x hy)) n

/-- All piece-square-table lookups lie in [−50, 50]. -/
theorem getPieceSquareValue_bounds (p : Piece) (sq : Int) (c : Colour) :
    -50 ≤ Evaluate.getPieceSquareValue p sq c ∧
      Evaluate.getPieceSquareValue p sq c ≤ 50 := by
  cases p with
  | EMPTY => constructor <;> norm_num [Evaluate.getPieceSquareValue]
  | PAWN => exact getD_bound50 Evaluate.pawnTable (by decide) _
  | KNIGHT => exact getD_bound50 Evaluate.knightTable (by decide) _
  | BISHOP => exact getD_bound50 Evaluate.bishopTable (by decide) _
  | ROOK => exact getD_bound50 Evaluate.rookTable (by decide) _
  | QUEEN => exact getD_bound50 Evaluate.queenTable (by decide) _
  | KING => exact getD_bound50 Evaluate.kingTable (by decide) _

/-- A fold whose every step moves the accumulator by at most `c` ends within
`c · length` of its start. -/
theorem foldl_diff_bounded {α : Type} (f : Int → α → Int) (c : Int)
    (h : ∀ s x, |f s x - s| ≤ c) (l : List α) (a : Int) :
    |List.foldl f a l - a| ≤ c * l.length := by
  induction l generalizing a with
  | nil => simp
  | cons x xs ih =>
    simp only [List.foldl_cons, List.length_cons]
    calc |List.foldl f (f a x) xs - a|
        ≤ |List.foldl f (f a x) xs - f a x| + |f a x - a| := abs_sub_le _ _ _
      _ ≤ c * xs.length + c := add_le_add (ih _) (h a x)
      _ = c * (xs.length + 1 : Nat) := by push_cast; ring

/-- `Evaluate::score` unfolded into its five addends. -/
theorem score_eq (b : Board) :
    Evaluate.score b =
      (List.range 64).foldl (fun score sq =>
        let piece := b.getSquare (Int.ofNat sq)
        if piece.piece = EMPTY then score
        else
          let material := Evaluate.getMaterialValue piece.piece
          let pst := Evaluate.getPieceSquareValue piece.piece (Int.ofNat sq) piece.colour
          if piece.colour = WHITE then score + (material + pst)
          else if piece.colour = BLACK then score - (material + pst)
          else score) 0
      + Evaluate.evaluateCastling b + Evaluate.evaluatePawnStructure b
      + Evaluate.evaluateMobility b + Evaluate.evaluateGameStatus b := rfl

/-- The per-square material+table sum lies within ±60800. -/
theorem pieceSum_bound (b : Board) :
    |(List.range 64).foldl (fun score sq =>
        let piece := b.getSquare (Int.ofNat sq)
        if piece.piece = EMPTY then score
        else
          let material := Evaluate.getMaterialValue piece.piece
          let pst := Evaluate.getPieceSquareValue piece.piece (Int.ofNat sq) piece.colour
          if piece.colour = WHITE then score + (material + pst)
          else if piece.colour = BLACK then score - (material + pst)
          else score) 0| ≤ 60800 := by
  have h := foldl_diff_bounded (fun score sq =>
      let piece := b.getSquare (Int.ofNat sq)
      if piece.piece = EMPTY then score
      else
        let material := Evaluate.getMaterialValue piece.piece
        let pst := Evaluate.getPieceSquareValue piece.piece (Int.ofNat sq) piece.colour
        if piece.colour = WHITE then score + (material + pst)
        else if piece.colour = BLACK then score - (material + pst)
        else score) 950 ?_ (List.range 64) 0
  · simpa using h
  · intro s sq
    obtain ⟨hm1, hm2⟩ := getMaterialValue_bounds (b.getSquare (Int.ofNat sq)).piece
    obtain ⟨hp1, hp2⟩ := getPieceSquareValue_bounds (b.getSquare (Int.ofNat sq)).piece
      (Int.ofNat sq) (b.getSquare (Int.ofNat sq)).colour
    simp only []
    split_ifs <;> [skip; skip; skip; skip] <;> rw [abs_le] <;> constructor <;> linarith

/-- The castling-rights bonus lies within ±40. -/
theorem evaluateCastling_bound (b : Board) :
    |Evaluate.evaluateCastling b| ≤ 40 := by
  simp only [Evaluate.evaluateCastling]
  split_ifs <;> norm_num

/-- A fold whose every step changes the pair by a unit increment in one
component (or not at all) keeps both components within `length` of start. -/
theorem foldl_pair_counts {α : Type} (f : Int × Int → α → Int × Int)
    (hf : ∀ s x, f s x = s ∨ f s x = (s.1 + 1, s.2) ∨ f s x = (s.1, s.2 + 1))
    (l : List α) (a : Int × Int) :
    a.1 ≤ (List.foldl f a l).1 ∧ (List.foldl f a l).1 ≤ a.1 + l.length ∧
    a.2 ≤ (List.foldl f a l).2 ∧ (List.foldl f a l).2 ≤ a.2 + l.length := by
  induction l generalizing a with
  | nil => simp
  | cons x xs ih =>
    simp only [List.foldl_cons, List.length_cons]
    obtain ⟨i1, i2, i3, i4⟩ := ih (f a x)
    rcases hf a x with h | h | h <;>
      rw [h] at i1 i2 i3 i4 ⊢ <;>
      (try dsimp only at i1 i2 i3 i4) <;>
      (try push_cast at i2 i4 ⊢) <;>
      exact ⟨by linarith, by linarith, by linarith, by linarith⟩

/-- Bounds on the per-file pawn counters of `evaluatePawnStructure`. -/
theorem pawnCounts_bounds (b : Board) (file : Nat) :
    0 ≤ ((List.range 8).foldl (fun (wb : Int × Int) rank =>
        let s := b.getSquare (Board.toIndex (Int.ofNat file) (Int.ofNat rank))
        if s.piece = PAWN then
          if s.colour = WHITE then (wb.1 + 1, wb.2)
          else if s.colour = BLACK then (wb.1, wb.2 + 1)
          else wb
        else wb) ((0 : Int), (0 : Int))).1 ∧
    ((List.range 8).foldl (fun (wb : Int × Int) rank =>
        let s := b.getSquare (Board.toIndex (Int.ofNat file) (Int.ofNat rank))
        if s.piece = PAWN then
          if s.colour = WHITE then (wb.1 + 1, wb.2)
          else if s.colour = BLACK then (wb.1, wb.2 + 1)
          else wb
        else wb) ((0 : Int), (0 : Int))).1 ≤ 8 ∧
    0 ≤ ((List.range 8).foldl (fun (wb : Int × Int) rank =>
        let s := b.getSquare (Board.toIndex (Int.ofNat file) (Int.ofNat rank))
        if s.piece = PAWN then
          if s.colour = WHITE then (wb.1 + 1, wb.2)
          else if s.colour = BLACK then (wb.1, wb.2 + 1)
          else wb
        else wb) ((0 : Int), (0 : Int))).2 ∧
    ((List.range 8).foldl (fun (wb : Int × Int) rank =>
        let s := b.getSquare (Board.toIndex (Int.ofNat file) (Int.ofNat rank))
        if s.piece = PAWN then
          if s.colour = WHITE then (wb.1 + 1, wb.2)
          else if s.colour = BLACK then (wb.1, wb.2 + 1)
          else wb
        else wb) ((0 : Int), (0 : Int))).2 ≤ 8 := by
  have h := foldl_pair_counts (fun (wb : Int × Int) rank =>
      let s := b.getSquare (Board.toIndex (Int.ofNat file) (Int.ofNat rank))
      if s.piece = PAWN then
        if s.colour = WHITE then (wb.1 + 1, wb.2)
        else if s.colour = BLACK then (wb.1, wb.2 + 1)
        else wb
      else wb)
    (by
      intro wb rank
      simp only []
      split_ifs
      · exact Or.inr (Or.inl rfl)
      · exact Or.inr (Or.inr rfl)
      · exact Or.inl rfl
      · exact Or.inl rfl)
    (List.range 8) ((0 : Int), (0 : Int))
  exact h

/-- The doubled-pawn term lies within ±560. -/
theorem evaluatePawnStructure_bound (b : Board) :
    |Evaluate.evaluatePawnStructure b| ≤ 560 := by
  have h := foldl_diff_bounded (fun score file =>
      let counts := (List.range 8).foldl (fun (wb : Int × Int) rank =>
        let s := b.getSquare (Board.toIndex (Int.ofNat file) (Int.ofNat rank))
        if s.piece = PAWN then
          if s.colour = WHITE then (wb.1 + 1, wb.2)
          else if s.colour = BLACK then (wb.1, wb.2 + 1)
          else wb
        else wb) ((0 : Int), (0 : Int))
      let score := if counts.1 > 1 then score - 10 * (counts.1 - 1) else score
      if counts.2 > 1 then score + 10 * (counts.2 - 1) else score) 70 ?_ (List.range 8) 0
  · simpa [Evaluate.evaluatePawnStructure] using h
  · intro s file
    obtain ⟨c1, c2, c3, c4⟩ := pawnCounts_bounds b file
    simp only []
    split_ifs <;> rw [abs_le] <;> exact ⟨by linarith, by linarith⟩

/-- Each sliding ray yields at most `fuel` moves. -/
theorem length_rayGo_le (b : Board) (fromSq : Int) (col : Colour)
    (file rank df dr : Int) :
    ∀ (fuel : Nat) (dist : Int),
      (MoveGen.rayGo b fromSq col file rank df dr fuel dist).length ≤ fuel := by
  intro fuel
  induction fuel with
  | zero => intro dist; simp [MoveGen.rayGo]
  | succ n ih =>
    intro dist
    simp only [MoveGen.rayGo]
    split_ifs
    · simp
    · have := ih (dist + 1)
      simp only [List.length_cons]
      omega
    · simp
    · simp

/-- A fold whose every step grows the list by at most `c` elements. -/
theorem length_foldl_append_le {α : Type} (f : List Move → α → List Move) (c : Nat)
    (hf : ∀ acc x, (f acc x).length ≤ acc.length + c) (l : List α) (a : List Move) :
    (List.foldl f a l).length ≤ a.length + c * l.length := by
  induction l generalizing a with
  | nil => simp
  | cons x xs ih =>
    simp only [List.foldl_cons, List.length_cons]
    have h1 := ih (f a x)
    have h2 := hf a x
    have : c * (xs.length + 1) = c * xs.length + c := by ring
    omega

/-- `addPawnMoves` yields at most 13 moves. -/
theorem addPawnMoves_length (b : Board) (sq : Int) :
    (MoveGen.addPawnMoves b sq).length ≤ 13 := by
  simp only [MoveGen.addPawnMoves, List.length_append]
  refine le_trans (Nat.add_le_add ?_ ?_) (by norm_num : 5 + 8 ≤ 13)
  · split_ifs <;> simp [MoveGen.promotionMoves, MoveGen.plainMove]
  · refine le_trans (length_foldl_append_le _ 4 ?_ _ _) (by norm_num)
    intro acc df
    simp only [List.length_append]
    split_ifs <;> simp [MoveGen.promotionMoves, MoveGen.plainMove]

/-- `addKnightMoves` yields at most 8 moves. -/
theorem addKnightMoves_length (b : Board) (sq : Int) :
    (MoveGen.addKnightMoves b sq).length ≤ 8 := by
  simp only [MoveGen.addKnightMoves]
  refine le_trans (length_foldl_append_le _ 1 ?_ _ _) (by norm_num [knightOffsets])
  intro acc off
  simp only [List.length_append]
  split_ifs <;> simp

/-- `addKingMoves` yields at most 8 moves. -/
theorem addKingMoves_length (b : Board) (sq : Int) :
    (MoveGen.addKingMoves b sq).length ≤ 8 := by
  simp only [MoveGen.addKingMoves]
  refine le_trans (length_foldl_append_le _ 1 ?_ _ _) (by norm_num [kingOffsets])
  intro acc off
  simp only [List.length_append]
  split_ifs <;> simp

/-- `addBishopMoves` yields at most 28 moves. -/
theorem addBishopMoves_length (b : Board) (sq : Int) :
    (MoveGen.addBishopMoves b sq).length ≤ 28 := by
  simp only [MoveGen.addBishopMoves]
  refine le_trans (length_foldl_append_le _ 7 ?_ _ _) (by norm_num [bishopOffsets])
  intro acc off
  simp only [List.length_append]
  have := length_rayGo_le b sq (b.getSquare sq).colour (Board.fileOf sq)
    (Board.rankOf sq) off.1 off.2 7 1
  omega

/-- `addRookMoves` yields at most 28 moves. -/
theorem addRookMoves_length (b : Board) (sq : Int) :
    (MoveGen.addRookMoves b sq).length ≤ 28 := by
  simp only [MoveGen.addRookMoves]
  refine le_trans (length_foldl_append_le _ 7 ?_ _ _) (by norm_num [rookOffsets])
  intro acc off
  simp only [List.length_append]
  have := length_rayGo_le b sq (b.getSquare sq).colour (Board.fileOf sq)
    (Board.rankOf sq) off.1 off.2 7 1
  omega

/-- `addQueenMoves` yields at most 56 moves. -/
theorem addQueenMoves_length (b : Board) (sq : Int) :
    (MoveGen.addQueenMoves b sq).length ≤ 56 := by
  simp only [MoveGen.addQueenMoves, List.length_append]
  have h1 := addBishopMoves_length b sq
  have h2 := addRookMoves_length b sq
  omega

/-- Any single square contributes at most 56 pseudo-legal moves. -/
theorem pieceMovesFrom_length (b : Board) (sq : Int) :
    (MoveGen.pieceMovesFrom b sq).length ≤ 56 := by
  simp only [MoveGen.pieceMovesFrom]
  split_ifs
  · simp
  · cases hsp : (b.getSquare sq).piece
    · simp
    · exact le_trans (addPawnMoves_length b sq) (by norm_num)
    · exact le_trans (addKnightMoves_length b sq) (by norm_num)
    · exact le_trans (addBishopMoves_length b sq) (by norm_num)
    · exact le_trans (addRookMoves_length b sq) (by norm_num)
    · exact addQueenMoves_length b sq
    · exact le_trans (addKingMoves_length b sq) (by norm_num)

/-- At most two castling moves. -/
theorem addCastlingMoves_length (b : Board) :
    (MoveGen.addCastlingMoves b).length ≤ 2 := by
  simp only [MoveGen.addCastlingMoves, List.length_append]
  split_ifs <;> simp

/-- At most two en-passant moves. -/
theorem addEnPassantMoves_length (b : Board) :
    (MoveGen.addEnPassantMoves b).length ≤ 2 := by
  simp only [MoveGen.addEnPassantMoves]
  split_ifs
  all_goals try (simp; done)
  all_goals
    refine le_trans (length_foldl_append_le _ 1 ?_ _ _) (by norm_num)
    intro acc df
    simp only [List.length_append]
    split_ifs <;> simp

/-- The pseudo-legal move list holds at most 3588 moves. -/
theorem generatePseudoLegalMoves_length (b : Board) :
    (MoveGen.generatePseudoLegalMoves b).length ≤ 3588 := by
  simp only [MoveGen.generatePseudoLegalMoves, List.length_append]
  have h1 : ((List.range 64).foldl
      (fun acc sq => acc ++ MoveGen.pieceMovesFrom b (Int.ofNat sq)) []).length ≤
      ([] : List Move).length + 56 * (List.range 64).length := by
    refine length_foldl_append_le _ 56 ?_ _ _
    intro acc sq
    simp only [List.length_append]
    have := pieceMovesFrom_length b (Int.ofNat sq)
    omega
  simp only [List.length_nil, List.length_range] at h1
  have h2 := addCastlingMoves_length b
  have h3 := addEnPassantMoves_length b
  omega

/-- The legal move list holds at most 3588 moves. -/
theorem generateLegalMoves_length (b : Board) :
    (MoveGen.generateLegalMoves b).length ≤ 3588 :=
  le_trans (List.length_filter_le _ _) (generatePseudoLegalMoves_length b)

/-- The mobility term lies within ±3588. -/
theorem evaluateMobility_bound (b : Board) :
    |Evaluate.evaluateMobility b| ≤ 3588 := by
  have h1 := generateLegalMoves_length b
  have h2 := generateLegalMoves_length (b.makeMoveStr "a2a3").2
  rw [evaluateMobility_eq b, abs_le]
  constructor <;> omega

/-- A uniform bound on the evaluation: every position scores within
±99000. -/
theorem score_bound (b : Board) : |Evaluate.score b| ≤ 99000 := by
  obtain ⟨p1, p2⟩ := abs_le.mp (pieceSum_bound b)
  obtain ⟨q1, q2⟩ := abs_le.mp (evaluateCastling_bound b)
  obtain ⟨r1, r2⟩ := abs_le.mp (evaluatePawnStructure_bound b)
  obtain ⟨s1, s2⟩ := abs_le.mp (evaluateMobility_bound b)
  rw [score_eq, abs_le]
  constructor <;> simp only [Evaluate.evaluateGameStatus] <;> linarith

/-- `Search::checkGameOver` lies within [−100000, 99000 + ply]. -/
theorem checkGameOver_bounds (b : Board) (ply : Nat) :
    -100000 ≤ Search.checkGameOver b ply ∧
      Search.checkGameOver b ply ≤ 99000 + (ply : Int) := by
  obtain ⟨s1, s2⟩ := abs_le.mp (score_bound b)
  simp only [Search.checkGameOver]
  split_ifs <;> constructor <;> push_cast <;> omega

/-- The unpruned minimax value always lies in [−100000, 99000 + d]: leaves
are bounded by `score_bound`, terminal nodes by `checkGameOver_bounds`, and
interior nodes fold over at least one successfully applied move. -/
theorem fullMinimax_bounds (d : Nat) : ∀ (b : Board) (mp : Bool),
    -100000 ≤ Search.fullMinimax d b mp ∧
      Search.fullMinimax d b mp ≤ 99000 + (d : Int) := by
  induction d with
  | zero =>
    intro b mp
    obtain ⟨s1, s2⟩ := abs_le.mp (score_bound b)
    constructor <;> simp only [Search.fullMinimax] <;> push_cast <;> linarith
  | succ d ih =>
    intro b mp
    have hd0 : (0 : Int) ≤ (d : Int) := Int.natCast_nonneg d
    rw [fullMinimax_succ]
    by_cases hgo : b.isGameOver = true
    · rw [if_pos hgo]
      obtain ⟨s1, s2⟩ := abs_le.mp (score_bound b)
      constructor <;> push_cast <;> linarith
    · rw [if_neg hgo]
      by_cases hemp : (MoveGen.generateLegalMoves b).isEmpty = true
      · rw [if_pos hemp]
        obtain ⟨c1, c2⟩ := checkGameOver_bounds b (d + 1)
        exact ⟨c1, c2⟩
      · rw [if_neg hemp]
        have hne : Search.orderMoves b (MoveGen.generateLegalMoves b) ≠ [] := by
          intro hcon
          apply hemp
          have hlen := length_orderMoves b (MoveGen.generateLegalMoves b)
          rw [hcon] at hlen
          have hnil : MoveGen.generateLegalMoves b = [] :=
            List.length_eq_zero.mp hlen.symm
          rw [hnil]
          rfl
        obtain ⟨m, rest, hord⟩ := List.exists_cons_of_ne_nil hne
        have hmem : m ∈ MoveGen.generateLegalMoves b := by
          apply mem_of_mem_orderMoves b _ m
          rw [hord]
          exact List.mem_cons_self m rest
        have hok : (b.makeMove m).1 = true := legal_move_ok b m hmem
        by_cases hmp : mp = true
        · rw [if_pos hmp, hord, List.foldl_cons, maxFoldStep_eq, if_pos hok]
          constructor
          · have hstep := le_foldl_maxFoldStep b
              (fun bc => Search.fullMinimax d bc false) rest
              (max Search.intMin (Search.fullMinimax d (b.makeMove m).2 false))
            have hchild := (ih (b.makeMove m).2 false).1
            have hmx : Search.fullMinimax d (b.makeMove m).2 false ≤
                max Search.intMin (Search.fullMinimax d (b.makeMove m).2 false) :=
              le_max_right _ _
            linarith
          · push_cast
            refine foldl_maxFoldStep_le_bound b _ rest _ (99000 + ((d : Int) + 1)) ?_ ?_
            · have hchild := (ih (b.makeMove m).2 false).2
              have hmin : Search.intMin ≤ 99000 + ((d : Int) + 1) := by
                simp only [Search.intMin]
                linarith
              exact max_le hmin (by linarith)
            · intro m'
              have := (ih (b.makeMove m').2 false).2
              linarith
        · rw [if_neg hmp, hord, List.foldl_cons, minFoldStep_eq, if_pos hok]
          constructor
          · refine foldl_minFoldStep_ge_bound b _ rest _ (-100000) ?_ ?_
            · refine le_min ?_ (ih (b.makeMove m).2 true).1
              simp only [Search.intMax]
              linarith
            · intro m'
              exact (ih (b.makeMove m').2 true).1
          · have hstep := foldl_minFoldStep_le b
              (fun bc => Search.fullMinimax d bc true) rest
              (min Search.intMax (Search.fullMinimax d (b.makeMove m).2 true))
            have hchild := (ih (b.makeMove m).2 true).2
            have hmn : min Search.intMax (Search.fullMinimax d (b.makeMove m).2 true) ≤
                Search.fullMinimax d (b.makeMove m).2 true :=
              min_le_right _ _
            push_cast
            linarith

/-- C9: for every position and depth (any depth small enough that the mate
scores stay within the `int` window, amply covering every "fixed small
depth"), `Search::minimax` called with the full initial window
(`alpha = INT_MIN`, `beta = INT_MAX`) returns exactly the score of the
unpruned full minimax `fullMinimax` — the same recursion with the alpha-beta
cutoff removed — over the same tree and the same move ordering. -/
theorem alphabeta_equals_full_minimax (d : Nat) (b : Board) (mp : Bool)
    (hd : d ≤ 1000000) :
    Search.minimax d b Search.intMin Search.intMax mp =
      Search.fullMinimax d b mp := by
  have hw : Search.intMin < Search.intMax := by
    simp only [Search.intMin, Search.intMax]
    norm_num
  have h := minimax_ABRel d b Search.intMin Search.intMax mp hw
  obtain ⟨b1, b2⟩ := fullMinimax_bounds d b mp
  have hdle : (d : Int) ≤ 1000000 := by exact_mod_cast hd
  apply (h.2.1 ?_ ?_)
  · simp only [Search.intMin]
    linarith
  · simp only [Search.intMax]
    linarith

/-- Witness for `alphabeta_equals_full_minimax`: depth 1 from the initial
position. -/
theorem alphabeta_equals_full_minimax_witness :
    Search.minimax 1 Board.initial Search.intMin Search.intMax true =
      Search.fullMinimax 1 Board.initial true :=
  alphabeta_equals_full_minimax 1 Board.initial true (by norm_num)

end Oliviathan
